import Mathlib

/-!
Verification of the mkvdump EBML/Matroska parser core.

This file shallowly embeds the Rust sources of the repository
(`mkvparser/src/lib.rs`, `mkvparser/src/tree.rs`, `mkvdump/src/main.rs`)
into Lean 4 and proves properties of the embedding.

Modelling conventions:
- A Rust byte slice `&[u8]` is a `List Nat` whose entries are below 256
  (stated as a hypothesis where it matters).
- `usize`/`u64` values are `Nat`; the host is 64-bit, so the
  `usize::try_from(u64)` conversion in `parse_varint` never fails and the
  `Overflow` branch is dead.  Wrapping 64-bit subtraction is modelled
  explicitly where the source can underflow (`tree.rs`).
- Fallible functions return `Except Error`, mirroring the `Result` type of
  the source; a reachable Rust panic is modelled as `Except.error` carrying
  the panic message.
- Rust `String` values produced by `parse_string` are modelled as their
  UTF-8 byte lists; the hex summary built by `as_hex` is modelled as a
  `List Char` (the characters of the Rust `String`).
- `f64` values are not interpreted numerically (no claim inspects them);
  `Body.Float` carries the raw big-endian body bytes that the source would
  feed to `f32::from_be_bytes`/`f64::from_be_bytes`.
- `chrono::DateTime<Utc>` is represented by its UNIX timestamp in seconds:
  the source builds every date via `NaiveDateTime::from_timestamp_opt(secs, 0)`,
  so the seconds value determines the date.  For bodies of at most 8 bytes
  the seconds value is far inside chrono's range, so the `InvalidDate`
  branches of `parse_date` are unreachable and are not modelled.
-/

namespace Mkv

/-- Error type of the parser, from `error.rs` (`pub enum Error`). -/
inductive Error where
  | NeedData
  | Parser
  | InvalidId
  | InvalidVarint
  | ForbiddenUnknownSize
  | Utf8
  | ForbiddenIntegerSize
  | ForbiddenFloatSize
  | ValidElementNotFound
  | MissingTrackNumber
  | Overflow
  | InvalidDate
  deriving DecidableEq, Repr

/-- `nom::bytes::streaming::take(len)`: returns `(rest, taken)`; an input
shorter than `len` yields `Incomplete`, converted to `Error::NeedData` by
the `From<nom::Err<()>>` instance in `error.rs`. -/
def readBytes (n : Nat) (input : List Nat) : Except Error (List Nat × List Nat) :=
  if input.length < n then .error .NeedData
  else .ok (input.drop n, input.take n)

/-- Big-endian value of a byte list; models zero-padding the bytes on the
left into a fixed-width buffer and calling `u32::from_be_bytes` /
`u64::from_be_bytes`. -/
def beVal (bytes : List Nat) : Nat :=
  bytes.foldl (fun acc b => acc * 256 + b) 0

/-- `count_leading_zero_bits` from `mkvparser/src/lib.rs`: the first
`leading_zeros` in `0..8` with `input >= 0b10000000 >> leading_zeros`,
and 8 if there is none. -/
def countLeadingZeroBits (input : Nat) : Nat :=
  ((List.range 8).find? (fun leadingZeros => 128 >>> leadingZeros ≤ input)).getD 8

/-- Subset of the element catalog (`Id` in the generated `elements.rs`).

Modelled from the spec: the full catalog is generated at build time from
XML schemas that are not part of the source tree.  The constructors and
wire values here follow §4.1/§4.6 of the spec and the in-repo table
`src/parser/src/id.rs`; ids outside this subset decode to `Unknown`. -/
inductive Id where
  | Unknown (value : Nat)
  | Corrupted
  | Ebml
  | EbmlVersion
  | EbmlReadVersion
  | EbmlMaxIdLength
  | EbmlMaxSizeLength
  | DocType
  | DocTypeVersion
  | DocTypeReadVersion
  | Void
  | Segment
  | SeekHead
  | SeekId
  | Info
  | Duration
  | DateUtc
  | MuxingApp
  | Cluster
  | SimpleBlock
  | Block
  | Tracks
  | TrackType
  | Cues
  | Attachments
  | Chapters
  | Tags
  | Crc32
  | Targets
  | BlockGroup
  deriving DecidableEq, Repr

/-- `Id::new`: look a wire value up in the catalog, falling back to
`Unknown`. -/
def Id.new (id : Nat) : Id :=
  if id = 0x1A45DFA3 then .Ebml
  else if id = 0x4286 then .EbmlVersion
  else if id = 0x42F7 then .EbmlReadVersion
  else if id = 0x42F2 then .EbmlMaxIdLength
  else if id = 0x42F3 then .EbmlMaxSizeLength
  else if id = 0x4282 then .DocType
  else if id = 0x4287 then .DocTypeVersion
  else if id = 0x4285 then .DocTypeReadVersion
  else if id = 0xEC then .Void
  else if id = 0x18538067 then .Segment
  else if id = 0x114D9B74 then .SeekHead
  else if id = 0x53AB then .SeekId
  else if id = 0x1549A966 then .Info
  else if id = 0x4489 then .Duration
  else if id = 0x4461 then .DateUtc
  else if id = 0x4D80 then .MuxingApp
  else if id = 0x1F43B675 then .Cluster
  else if id = 0xA3 then .SimpleBlock
  else if id = 0xA1 then .Block
  else if id = 0x1654AE6B then .Tracks
  else if id = 0x83 then .TrackType
  else if id = 0x1C53BB6B then .Cues
  else if id = 0x1941A469 then .Attachments
  else if id = 0x1043A770 then .Chapters
  else if id = 0x1254C367 then .Tags
  else if id = 0xBF then .Crc32
  else if id = 0x63C0 then .Targets
  else if id = 0xA0 then .BlockGroup
  else .Unknown id

/-- `Id::get_value`: the raw wire value; `Corrupted` has none. -/
def Id.getValue : Id → Option Nat
  | .Unknown value => some value
  | .Corrupted => none
  | .Ebml => some 0x1A45DFA3
  | .EbmlVersion => some 0x4286
  | .EbmlReadVersion => some 0x42F7
  | .EbmlMaxIdLength => some 0x42F2
  | .EbmlMaxSizeLength => some 0x42F3
  | .DocType => some 0x4282
  | .DocTypeVersion => some 0x4287
  | .DocTypeReadVersion => some 0x4285
  | .Void => some 0xEC
  | .Segment => some 0x18538067
  | .SeekHead => some 0x114D9B74
  | .SeekId => some 0x53AB
  | .Info => some 0x1549A966
  | .Duration => some 0x4489
  | .DateUtc => some 0x4461
  | .MuxingApp => some 0x4D80
  | .Cluster => some 0x1F43B675
  | .SimpleBlock => some 0xA3
  | .Block => some 0xA1
  | .Tracks => some 0x1654AE6B
  | .TrackType => some 0x83
  | .Cues => some 0x1C53BB6B
  | .Attachments => some 0x1941A469
  | .Chapters => some 0x1043A770
  | .Tags => some 0x1254C367
  | .Crc32 => some 0xBF
  | .Targets => some 0x63C0
  | .BlockGroup => some 0xA0

/-- Matroska element value type (`Type` in the generated `elements.rs`,
macro shape in `src/src/ebml.rs`). -/
inductive ElementType where
  | Master
  | Unsigned
  | Signed
  | Float
  | String
  | Utf8
  | Date
  | Binary
  deriving DecidableEq, Repr

/-- `Id::get_type`: the catalog value type; `Unknown` and `Corrupted`
resolve to `Binary` (macro arm `Id::Unknown(_) | Id::Corrupted =>
Type::Binary` in `src/src/ebml.rs`). -/
def Id.getType : Id → ElementType
  | .Unknown _ => .Binary
  | .Corrupted => .Binary
  | .Ebml => .Master
  | .EbmlVersion => .Unsigned
  | .EbmlReadVersion => .Unsigned
  | .EbmlMaxIdLength => .Unsigned
  | .EbmlMaxSizeLength => .Unsigned
  | .DocType => .String
  | .DocTypeVersion => .Unsigned
  | .DocTypeReadVersion => .Unsigned
  | .Void => .Binary
  | .Segment => .Master
  | .SeekHead => .Master
  | .SeekId => .Binary
  | .Info => .Master
  | .Duration => .Float
  | .DateUtc => .Date
  | .MuxingApp => .Utf8
  | .Cluster => .Master
  | .SimpleBlock => .Binary
  | .Block => .Binary
  | .Tracks => .Master
  | .TrackType => .Unsigned
  | .Cues => .Master
  | .Attachments => .Master
  | .Chapters => .Master
  | .Tags => .Master
  | .Crc32 => .Binary
  | .Targets => .Master
  | .BlockGroup => .Master

/-- `parse_id` from `mkvparser/src/lib.rs`. -/
def parseId (input : List Nat) : Except Error (List Nat × Id) :=
  match input with
  | [] => .error .NeedData
  | firstByte :: _ =>
    let numBytes := countLeadingZeroBits firstByte + 1
    -- IDs can only have up to 4 bytes in Matroska
    if numBytes > 4 then .error .InvalidId
    else
      match readBytes numBytes input with
      | .error e => .error e
      | .ok (rest, varintBytes) => .ok (rest, Id.new (beVal varintBytes))

/-- `Header` from `mkvparser/src/lib.rs`. -/
structure Header where
  id : Id
  headerSize : Nat
  bodySize : Option Nat
  size : Option Nat
  position : Option Nat
  deriving DecidableEq, Repr

/-- `Header::new`. -/
def Header.new (id : Id) (headerSize : Nat) (bodySize : Nat) : Header :=
  { id := id
    headerSize := headerSize
    bodySize := some bodySize
    size := some (headerSize + bodySize)
    position := none }

/-- `Header::with_unknown_size`. -/
def Header.withUnknownSize (id : Id) (headerSize : Nat) : Header :=
  { id := id
    headerSize := headerSize
    bodySize := none
    size := none
    position := none }

/-- `parse_varint` from `mkvparser/src/lib.rs`.  On a 64-bit host the
`usize::try_from` conversion never fails, so the `Overflow` branch is
dead and not modelled. -/
def parseVarint (input : List Nat) : Except Error (List Nat × Option Nat) :=
  match input with
  | [] => .error .NeedData
  | firstByte :: _ =>
    let vintWidth := countLeadingZeroBits firstByte + 1
    -- Maximum 8 bytes, i.e. first byte can't be 0
    if vintWidth > 8 then .error .InvalidVarint
    else
      match readBytes vintWidth input with
      | .error e => .error e
      | .ok (rest, varintBytes) =>
        let value := beVal varintBytes
        let numBitsInValue := 7 * vintWidth
        let bitmask := (1 <<< numBitsInValue) - 1
        let value := value &&& bitmask
        -- all VINT_DATA bits set means unknown size/value
        .ok (rest, if value = bitmask then none else some value)

/-- `parse_header` from `mkvparser/src/lib.rs`. -/
def parseHeader (input : List Nat) : Except Error (List Nat × Header) :=
  match parseId input with
  | .error e => .error e
  | .ok (input1, id) =>
    match parseVarint input1 with
    | .error e => .error e
    | .ok (input2, bodySize) =>
      -- Only Segment and Cluster may use the unknown size
      if bodySize = none ∧ id ≠ .Segment ∧ id ≠ .Cluster then
        .error .ForbiddenUnknownSize
      else
        let headerSize := input.length - input2.length
        match bodySize with
        | some bodySize => .ok (input2, Header.new id headerSize bodySize)
        | none => .ok (input2, Header.withUnknownSize id headerSize)

/-- `Lacing` from `mkvparser/src/lib.rs`. -/
inductive Lacing where
  | Xiph
  | Ebml
  | FixedSize
  deriving DecidableEq, Repr

/-- `Block` from `mkvparser/src/lib.rs`. -/
structure Block where
  trackNumber : Nat
  timestamp : Int
  invisible : Bool
  lacing : Option Lacing
  numFrames : Option Nat
  deriving DecidableEq, Repr

/-- `SimpleBlock` from `mkvparser/src/lib.rs`. -/
structure SimpleBlock where
  trackNumber : Nat
  timestamp : Int
  keyframe : Bool
  invisible : Bool
  lacing : Option Lacing
  discardable : Bool
  numFrames : Option Nat
  deriving DecidableEq, Repr

/-- `parse_i16`: two big-endian bytes as a signed 16-bit value. -/
def parseI16 (input : List Nat) : Except Error (List Nat × Int) :=
  match readBytes 2 input with
  | .error e => .error e
  | .ok (rest, bytes) =>
    let v := beVal bytes
    .ok (rest, if v < 2 ^ 15 then (v : Int) else (v : Int) - 2 ^ 16)

/-- `is_invisible`: flag bit 3. -/
def isInvisible (flags : Nat) : Bool :=
  flags &&& (1 <<< 3) ≠ 0

/-- `get_lacing`: flag bits 2-1. -/
def getLacing (flags : Nat) : Option Lacing :=
  match (flags &&& 0b110) >>> 1 with
  | 0b01 => some .Xiph
  | 0b11 => some .Ebml
  | 0b10 => some .FixedSize
  | _ => none

/-- `parse_block` from `mkvparser/src/lib.rs`.  The `u8` increment
`num_frames + 1` wraps modulo 256 (release-mode Rust semantics). -/
def parseBlock (input : List Nat) : Except Error (List Nat × Block) :=
  match parseVarint input with
  | .error e => .error e
  | .ok (input1, trackNumber?) =>
    match trackNumber? with
    | none => .error .MissingTrackNumber
    | some trackNumber =>
      match parseI16 input1 with
      | .error e => .error e
      | .ok (input2, timestamp) =>
        match readBytes 1 input2 with
        | .error e => .error e
        | .ok (input3, flagBytes) =>
          let flags := flagBytes.headI
          let invisible := isInvisible flags
          let lacing := getLacing flags
          match lacing with
          | some _ =>
            match readBytes 1 input3 with
            | .error e => .error e
            | .ok (input4, nextByte) =>
              let numFrames := nextByte.headI
              .ok (input4,
                { trackNumber := trackNumber
                  timestamp := timestamp
                  invisible := invisible
                  lacing := lacing
                  numFrames := some ((numFrames + 1) % 256) })
          | none =>
            .ok (input3,
              { trackNumber := trackNumber
                timestamp := timestamp
                invisible := invisible
                lacing := lacing
                numFrames := none })

/-- `parse_simple_block` from `mkvparser/src/lib.rs`. -/
def parseSimpleBlock (input : List Nat) : Except Error (List Nat × SimpleBlock) :=
  match parseVarint input with
  | .error e => .error e
  | .ok (input1, trackNumber?) =>
    match trackNumber? with
    | none => .error .MissingTrackNumber
    | some trackNumber =>
      match parseI16 input1 with
      | .error e => .error e
      | .ok (input2, timestamp) =>
        match readBytes 1 input2 with
        | .error e => .error e
        | .ok (input3, flagBytes) =>
          let flags := flagBytes.headI
          let keyframe := flags &&& (1 <<< 7) ≠ 0
          let invisible := isInvisible flags
          let lacing := getLacing flags
          let discardable := flags &&& 0b1 ≠ 0
          match lacing with
          | some _ =>
            match readBytes 1 input3 with
            | .error e => .error e
            | .ok (input4, nextByte) =>
              let numFrames := nextByte.headI
              .ok (input4,
                { trackNumber := trackNumber
                  timestamp := timestamp
                  keyframe := keyframe
                  invisible := invisible
                  lacing := lacing
                  discardable := discardable
                  numFrames := some ((numFrames + 1) % 256) })
          | none =>
            .ok (input3,
              { trackNumber := trackNumber
                timestamp := timestamp
                keyframe := keyframe
                invisible := invisible
                lacing := lacing
                discardable := discardable
                numFrames := none })

/-- Hex digit character for a value below 16 (lowercase, as `{:02x}`). -/
def hexDigit (n : Nat) : Char :=
  if n < 10 then Char.ofNat (48 + n) else Char.ofNat (87 + n)

/-- The two characters `format!("{:02x}", b)` produces for a byte. -/
def byteHexChars (b : Nat) : List Char :=
  [hexDigit (b / 16), hexDigit (b % 16)]

/-- Rust `str::trim_end` on a character list (drop trailing whitespace). -/
def trimEndChars (l : List Char) : List Char :=
  (l.reverse.dropWhile Char.isWhitespace).reverse

/-- `<[u8] as SerializeAsHexForShortInputs>::as_hex` from
`mkvparser/src/lib.rs`: payloads of at most `MAX_LENGTH = 64` bytes are
listed as space-separated lowercase hex in square brackets (built by a
fold that appends a trailing space, then `trim_end`); longer payloads
render as `"N bytes"`. -/
def asHex (bytes : List Nat) : String :=
  if bytes.length ≤ 64 then
    let stringValues := trimEndChars
      (bytes.foldl (fun acc b => acc ++ byteHexChars b ++ [' ']) [])
    String.mk ('[' :: stringValues ++ [']'])
  else
    toString bytes.length ++ " bytes"

/-- `TrackType` enumeration members.

Modelled from the spec: the enumeration tables are generated from the XML
schemas, which are not in the source tree; the value/label pairs follow
the Matroska schema (`video = 1`, ... as in scenario S2). -/
inductive TrackTypeEnum where
  | Video
  | Audio
  | Complex
  | Logo
  | Subtitle
  | Buttons
  | Control
  | Metadata
  deriving DecidableEq, Repr

/-- `TrackType::new` of the generated `enumerations.rs`. -/
def TrackTypeEnum.fromValue : Nat → Option TrackTypeEnum
  | 1 => some .Video
  | 2 => some .Audio
  | 3 => some .Complex
  | 16 => some .Logo
  | 17 => some .Subtitle
  | 18 => some .Buttons
  | 32 => some .Control
  | 33 => some .Metadata
  | _ => none

/-- `Enumeration` of the generated `enumerations.rs` (subset; only the
`TrackType` table is needed by any claim). -/
inductive Enumeration where
  | TrackType (t : TrackTypeEnum)
  deriving DecidableEq, Repr

/-- `Enumeration::new(id, value) -> Option<Enumeration>`. -/
def Enumeration.new (id : Id) (value : Nat) : Option Enumeration :=
  match id with
  | .TrackType => (TrackTypeEnum.fromValue value).map .TrackType
  | _ => none

/-- `Unsigned` from `mkvparser/src/lib.rs`. -/
inductive Unsigned where
  | Standard (value : Nat)
  | Enumeration (e : Enumeration)
  deriving DecidableEq, Repr

/-- `Unsigned::new`. -/
def Unsigned.new (id : Id) (value : Nat) : Unsigned :=
  match Enumeration.new id value with
  | some e => .Enumeration e
  | none => .Standard value

/-- `BinaryValue` from `mkvparser/src/lib.rs`. -/
inductive BinaryValue where
  | Standard (summary : String)
  | SeekId (id : Id)
  | SimpleBlock (block : Mkv.SimpleBlock)
  | Block (block : Mkv.Block)
  | Void
  | Corrupted
  deriving DecidableEq, Repr

/-- `BinaryValue::new` from `mkvparser/src/lib.rs`. -/
def BinaryValue.new (id : Id) (value : List Nat) : Except Error BinaryValue :=
  match id with
  | .SeekId =>
    match parseId value with
    | .error e => .error e
    | .ok (_, seekId) => .ok (.SeekId seekId)
  | .SimpleBlock =>
    match parseSimpleBlock value with
    | .error e => .error e
    | .ok (_, block) => .ok (.SimpleBlock block)
  | .Block =>
    match parseBlock value with
    | .error e => .error e
    | .ok (_, block) => .ok (.Block block)
  | .Void => .ok .Void
  | _ => .ok (.Standard (asHex value))

/-- `Body` from `mkvparser/src/lib.rs`.  `String`/`Utf8` carry the UTF-8
bytes of the Rust `String`; `Float` carries the raw body bytes (the
numeric `f64` is never inspected by a claim); `Date` carries the UNIX
timestamp in seconds of the `DateTime<Utc>`. -/
inductive Body where
  | Master
  | Unsigned (value : Mkv.Unsigned)
  | Signed (value : Int)
  | Float (rawBytes : List Nat)
  | String (bytes : List Nat)
  | Utf8 (bytes : List Nat)
  | Date (secondsSince1970 : Int)
  | Binary (value : BinaryValue)
  deriving DecidableEq, Repr

/-- `Element` from `mkvparser/src/lib.rs`. -/
structure Element where
  header : Header
  body : Body
  deriving DecidableEq, Repr

/-- Is a byte a UTF-8 continuation byte? -/
def isCont (b : Nat) : Bool :=
  decide (0x80 ≤ b ∧ b ≤ 0xBF)

/-- Exact UTF-8 validity as checked by Rust `String::from_utf8`
(no overlong forms, no surrogates, maximum U+10FFFF). -/
def validUtf8 : List Nat → Bool
  | [] => true
  | b :: rest =>
    if b ≤ 0x7F then validUtf8 rest
    else if 0xC2 ≤ b ∧ b ≤ 0xDF then
      match rest with
      | b1 :: rest2 => isCont b1 && validUtf8 rest2
      | [] => false
    else if b = 0xE0 then
      match rest with
      | b1 :: b2 :: rest3 =>
        decide (0xA0 ≤ b1 ∧ b1 ≤ 0xBF) && isCont b2 && validUtf8 rest3
      | _ => false
    else if (0xE1 ≤ b ∧ b ≤ 0xEC) ∨ b = 0xEE ∨ b = 0xEF then
      match rest with
      | b1 :: b2 :: rest3 => isCont b1 && isCont b2 && validUtf8 rest3
      | _ => false
    else if b = 0xED then
      match rest with
      | b1 :: b2 :: rest3 =>
        decide (0x80 ≤ b1 ∧ b1 ≤ 0x9F) && isCont b2 && validUtf8 rest3
      | _ => false
    else if b = 0xF0 then
      match rest with
      | b1 :: b2 :: b3 :: rest4 =>
        decide (0x90 ≤ b1 ∧ b1 ≤ 0xBF) && isCont b2 && isCont b3 && validUtf8 rest4
      | _ => false
    else if 0xF1 ≤ b ∧ b ≤ 0xF3 then
      match rest with
      | b1 :: b2 :: b3 :: rest4 =>
        isCont b1 && isCont b2 && isCont b3 && validUtf8 rest4
      | _ => false
    else if b = 0xF4 then
      match rest with
      | b1 :: b2 :: b3 :: rest4 =>
        decide (0x80 ≤ b1 ∧ b1 ≤ 0x8F) && isCont b2 && isCont b3 && validUtf8 rest4
      | _ => false
    else false

/-- Drop trailing NUL bytes: `str::trim_end_matches('\0')` acting on the
UTF-8 bytes (a 0x00 byte in valid UTF-8 is always the NUL character). -/
def trimEndNuls (l : List Nat) : List Nat :=
  (l.reverse.dropWhile (fun b => b = 0)).reverse

/-- `parse_string` from `mkvparser/src/lib.rs`: take `body_size` bytes,
require valid UTF-8, strip trailing NUL characters. -/
def parseString (header : Header) (input : List Nat) :
    Except Error (List Nat × List Nat) :=
  match header.bodySize with
  | none => .error .ForbiddenUnknownSize
  | some bodySize =>
    match readBytes bodySize input with
    | .error e => .error e
    | .ok (rest, stringBytes) =>
      if validUtf8 stringBytes then .ok (rest, trimEndNuls stringBytes)
      else .error .Utf8

/-- `parse_binary` from `mkvparser/src/lib.rs`. -/
def parseBinary (header : Header) (input : List Nat) :
    Except Error (List Nat × List Nat) :=
  match header.bodySize with
  | none => .error .ForbiddenUnknownSize
  | some bodySize => readBytes bodySize input

/-- The shared body of `parse_int::<T>`: zero-pad the at most 8 body
bytes on the left and read the 8-byte buffer big-endian (as `u64`). -/
def parseIntRaw (header : Header) (input : List Nat) :
    Except Error (List Nat × Nat) :=
  match header.bodySize with
  | none => .error .ForbiddenUnknownSize
  | some bodySize =>
    if bodySize > 8 then .error .ForbiddenIntegerSize
    else
      match readBytes bodySize input with
      | .error e => .error e
      | .ok (rest, intBytes) => .ok (rest, beVal intBytes)

/-- Reinterpret a `u64` value as `i64` (two's complement). -/
def toSigned64 (v : Nat) : Int :=
  if v < 2 ^ 63 then (v : Int) else (v : Int) - 2 ^ 64

/-- `parse_int::<u64>`. -/
def parseUnsignedInt (header : Header) (input : List Nat) :
    Except Error (List Nat × Nat) :=
  parseIntRaw header input

/-- `parse_int::<i64>`. -/
def parseSignedInt (header : Header) (input : List Nat) :
    Except Error (List Nat × Int) :=
  match parseIntRaw header input with
  | .error e => .error e
  | .ok (rest, v) => .ok (rest, toSigned64 v)

/-- `parse_float` from `mkvparser/src/lib.rs`; the returned value is the
raw big-endian bytes of the float body (empty for the 0-size case). -/
def parseFloat (header : Header) (input : List Nat) :
    Except Error (List Nat × List Nat) :=
  match header.bodySize with
  | none => .error .ForbiddenUnknownSize
  | some bodySize =>
    if bodySize = 4 then readBytes 4 input
    else if bodySize = 8 then readBytes 8 input
    else if bodySize = 0 then .ok (input, [])
    else .error .ForbiddenFloatSize

/-- Nanoseconds from the UNIX epoch to 2001-01-01T00:00:00Z
(`NaiveDate::from_ymd_opt(2001, 1, 1)...timestamp_nanos()`). -/
def nanos2001 : Int := 978307200000000000

/-- `parse_date` from `mkvparser/src/lib.rs`: read the body as `i64`
nanoseconds since 2001-01-01, add the 2001 epoch offset, divide by 10^9
(Rust `/` truncates toward zero) and build the date from whole seconds
(`from_timestamp_opt(secs, 0)`; in range whenever the body has at most
8 bytes, so the `InvalidDate` branch is unreachable and not modelled). -/
def parseDate (header : Header) (input : List Nat) :
    Except Error (List Nat × Int) :=
  match parseSignedInt header input with
  | .error e => .error e
  | .ok (rest, timestampNanosTo2001) =>
    .ok (rest, Int.tdiv (timestampNanosTo2001 + nanos2001) 1000000000)

/-- `parse_body` from `mkvparser/src/lib.rs`. -/
def parseBody (header : Header) (input : List Nat) :
    Except Error (List Nat × Body) :=
  match header.id.getType with
  | .Master => .ok (input, .Master)
  | .Unsigned =>
    match parseUnsignedInt header input with
    | .error e => .error e
    | .ok (rest, value) => .ok (rest, .Unsigned (Unsigned.new header.id value))
  | .Signed =>
    match parseSignedInt header input with
    | .error e => .error e
    | .ok (rest, value) => .ok (rest, .Signed value)
  | .Float =>
    match parseFloat header input with
    | .error e => .error e
    | .ok (rest, value) => .ok (rest, .Float value)
  | .String =>
    match parseString header input with
    | .error e => .error e
    | .ok (rest, value) => .ok (rest, .String value)
  | .Utf8 =>
    match parseString header input with
    | .error e => .error e
    | .ok (rest, value) => .ok (rest, .Utf8 value)
  | .Date =>
    match parseDate header input with
    | .error e => .error e
    | .ok (rest, value) => .ok (rest, .Date value)
  | .Binary =>
    match parseBinary header input with
    | .error e => .error e
    | .ok (rest, value) =>
      match BinaryValue.new header.id value with
      | .error e => .error e
      | .ok bv => .ok (rest, .Binary bv)

/-- `parse_element` from `mkvparser/src/lib.rs`. -/
def parseElement (input : List Nat) : Except Error (List Nat × Element) :=
  match parseHeader input with
  | .error e => .error e
  | .ok (input1, header) =>
    match parseBody header input1 with
    | .error e => .error e
    | .ok (input2, body) => .ok (input2, { header := header, body := body })

/-- `SYNC_ELEMENT_IDS` from `mkvparser/src/lib.rs`. -/
def syncElementIds : List Id :=
  [.Cluster, .Ebml, .Segment, .SeekHead, .Info, .Tracks, .Cues,
   .Attachments, .Chapters, .Tags]

/-- `u32::to_be_bytes`. -/
def toBeBytes4 (v : Nat) : List Nat :=
  [v / 2 ^ 24 % 256, v / 2 ^ 16 % 256, v / 2 ^ 8 % 256, v % 256]

/-- The ten 4-byte windows the resync scanner looks for
(`sync_id.get_value().unwrap().to_be_bytes()`). -/
def syncIdBytes : List (List Nat) :=
  syncElementIds.map (fun id => toBeBytes4 (id.getValue.getD 0))

/-- Offset of the first 4-byte window of the input that equals a SYNC id
(the `input.windows(SYNC_ID_LEN).enumerate()` scan of
`find_valid_element`). -/
def findSync : List Nat → Option Nat
  | [] => none
  | b :: rest =>
    if (b :: rest).length < 4 then none
    else if ((b :: rest).take 4) ∈ syncIdBytes then some 0
    else (findSync rest).map (· + 1)

/-- `find_valid_element` from `mkvparser/src/lib.rs`. -/
def findValidElement (input : List Nat) : Except Error (List Nat × Element) :=
  match findSync input with
  | some offset =>
    .ok (input.drop offset,
      { header := Header.new .Corrupted 0 offset
        body := .Binary .Corrupted })
  | none => .error .ValidElementNotFound

/-- `parse_element_or_skip_corrupted` from `mkvparser/src/lib.rs`. -/
def parseElementOrSkipCorrupted (input : List Nat) :
    Except Error (List Nat × Element) :=
  match parseElement input with
  | .ok r => .ok r
  | .error _ => findValidElement input

/-! ## Tree builder (`mkvparser/src/tree.rs`) -/

/-- `ElementTree` from `mkvparser/src/tree.rs` (`Normal` leaf or
`MasterElement { header, children }`). -/
inductive ElementTree where
  | Normal (element : Element)
  | Master (header : Header) (children : List ElementTree)

/-- `Id::can_be_children_of` from `mkvparser/src/tree.rs`. -/
def canBeChildrenOf (child parent : Id) : Bool :=
  !(match child, parent with
    | .Cluster, .Cluster => true
    | .Ebml, _ => true
    | _, _ => false)

/-- 64-bit wrapping subtraction: release-mode semantics of the
`size_remaining -= ...` in `build_element_trees` (usize arithmetic). -/
def wrapSub (a b : Nat) : Nat :=
  (a + (2 ^ 64 - b % 2 ^ 64)) % 2 ^ 64

/-- The amount `build_element_trees` subtracts for a child: the header
size for Master children, the total size otherwise (where a non-Master
child with unknown size hits the
`expect("Only Master elements can have unknown size")` panic). -/
def countedSize (e : Element) : Option Nat :=
  match e.body with
  | .Master => some e.header.headerSize
  | _ => e.header.size

/-- The inner `while size_remaining > 0` loop of `build_element_trees`:
collect children of a Master element from the remaining flat sequence.
Returns the collected children and the elements left after the loop; the
`expect` panic is modelled as an error. -/
def collectChildren (parentId : Id) : List Element → Nat →
    Except String (List Element × List Element)
  | rest, sizeRemaining =>
    if sizeRemaining = 0 then .ok ([], rest)
    else
      match rest with
      | [] => .ok ([], [])
      | nextChild :: rest2 =>
        if canBeChildrenOf nextChild.header.id parentId then
          match countedSize nextChild with
          | some counted =>
            match collectChildren parentId rest2 (wrapSub sizeRemaining counted) with
            | .ok (children, left) => .ok (nextChild :: children, left)
            | .error e => .error e
          | none => .error "Only Master elements can have unknown size"
        else .ok ([], nextChild :: rest2)

/-- The loop consumes a prefix of the sequence: the collected children
followed by the leftover equal the input. -/
theorem collectChildren_append (parentId : Id) :
    ∀ (rest : List Element) (sizeRemaining : Nat) (children left : List Element),
      collectChildren parentId rest sizeRemaining = .ok (children, left) →
      children ++ left = rest := by
  intro rest
  induction rest with
  | nil =>
    intro sr children left h
    unfold collectChildren at h
    by_cases hsr : sr = 0 <;> simp [hsr] at h <;>
      obtain ⟨h1, h2⟩ := h <;> subst h1 <;> subst h2 <;> rfl
  | cons nextChild rest2 ih =>
    intro sr children left h
    unfold collectChildren at h
    by_cases hsr : sr = 0
    · simp [hsr] at h
      simp [← h.1, ← h.2]
    · simp [hsr] at h
      by_cases hc : canBeChildrenOf nextChild.header.id parentId
      · simp [hc] at h
        cases hcs : countedSize nextChild with
        | none => rw [hcs] at h; simp at h
        | some counted =>
          rw [hcs] at h
          simp at h
          cases hrec : collectChildren parentId rest2 (wrapSub sr counted) with
          | error e => rw [hrec] at h; simp at h
          | ok p =>
            rw [hrec] at h
            simp at h
            obtain ⟨h1, h2⟩ := h
            have := ih (wrapSub sr counted) p.1 p.2 (by rw [hrec])
            rw [← h1, ← h2]
            simpa using this
      · simp [hc] at h
        simp [← h.1, ← h.2]

/-- Length bound used for the termination of `buildElementTrees`. -/
theorem collectChildren_length (parentId : Id) (rest : List Element)
    (sizeRemaining : Nat) (children left : List Element)
    (h : collectChildren parentId rest sizeRemaining = .ok (children, left)) :
    children.length + left.length = rest.length := by
  have := collectChildren_append parentId rest sizeRemaining children left h
  calc children.length + left.length = (children ++ left).length := by simp
    _ = rest.length := by rw [this]

/-- `usize::MAX`, the budget used for unknown-size Master elements
(`body_size.unwrap_or(usize::MAX)`). -/
def usizeMax : Nat := 2 ^ 64 - 1

/-- `build_element_trees` from `mkvparser/src/tree.rs`; the reachable
`expect` panic is modelled as an error. -/
def buildElementTrees : List Element → Except String (List ElementTree)
  | [] => .ok []
  | element :: rest =>
    match element.body with
    | .Master =>
      match hcc : collectChildren element.header.id rest
          (element.header.bodySize.getD usizeMax) with
      | .error e => .error e
      | .ok (children, left) =>
        match buildElementTrees children with
        | .error e => .error e
        | .ok childTrees =>
          match buildElementTrees left with
          | .error e => .error e
          | .ok restTrees => .ok (.Master element.header childTrees :: restTrees)
    | _ =>
      match buildElementTrees rest with
      | .error e => .error e
      | .ok restTrees => .ok (.Normal element :: restTrees)
  termination_by l => l.length
  decreasing_by
  · have := collectChildren_length _ _ _ _ _ hcc
    simp
    omega
  · have := collectChildren_length _ _ _ _ _ hcc
    simp
    omega
  · simp

/-! ## Driver loop (`mkvdump/src/main.rs`, `parse_elements`) -/

/-- The position advance of one emitted element: `header_size` for a
Master body, `size.unwrap()` otherwise (the unwrap never sees `none` for
elements produced by the parser; `getD 0` stands for the unreachable
branch). -/
def positionAdvance (e : Element) : Nat :=
  match e.body with
  | .Master => e.header.headerSize
  | _ => e.header.size.getD 0

/-- The `while let Ok(...)` loop of `parse_elements` in
`mkvdump/src/main.rs`, with an explicit fuel bound (the source loop does
not terminate on every input, e.g. when the resync scanner repeatedly
matches at offset 0).  Returns the emitted elements and the unconsumed
remainder of the buffer. -/
def parseElementsGo : Nat → List Nat → Option Nat → List Element × List Nat
  | 0, readBuffer, _ => ([], readBuffer)
  | fuel + 1, readBuffer, position =>
    match parseElementOrSkipCorrupted readBuffer with
    | .error _ => ([], readBuffer)
    | .ok (newReadBuffer, element) =>
      let stamped : Element :=
        { element with header := { element.header with position := position } }
      let nextPosition := position.map (· + positionAdvance element)
      if newReadBuffer = [] then ([stamped], newReadBuffer)
      else
        let (elements, finalBuffer) := parseElementsGo fuel newReadBuffer nextPosition
        (stamped :: elements, finalBuffer)

/-- `parse_elements(input, show_position)` from `mkvdump/src/main.rs`
(fuel-bounded). -/
def parseElements (fuel : Nat) (input : List Nat) (showPosition : Bool) :
    List Element × List Nat :=
  parseElementsGo fuel input (if showPosition then some 0 else none)

/-! ## Supporting lemmas -/

theorem countLeadingZeroBits_zero : countLeadingZeroBits 0 = 8 := by decide

theorem countLeadingZeroBits_le_seven (b : Nat) (hb : b ≠ 0) :
    countLeadingZeroBits b ≤ 7 := by
  have hex : ∃ x ∈ List.range 8, (fun lz => decide (128 >>> lz ≤ b)) x = true := by
    refine ⟨7, by decide, ?_⟩
    simp only [Nat.shiftRight_succ, decide_eq_true_eq]
    omega
  have hsome : ((List.range 8).find?
      (fun lz => decide (128 >>> lz ≤ b))).isSome := by
    rw [List.find?_isSome]
    exact hex
  obtain ⟨y, hy⟩ := Option.isSome_iff_exists.mp hsome
  have hmem : y ∈ List.range 8 := List.mem_of_find?_eq_some hy
  have : y < 8 := List.mem_range.mp hmem
  unfold countLeadingZeroBits
  rw [hy]
  simpa using Nat.lt_succ_iff.mp this

theorem and_mask_eq_mod (v m : Nat) : v &&& ((1 <<< m) - 1) = v % 2 ^ m := by
  rw [Nat.one_shiftLeft]
  exact Nat.and_pow_two_sub_one_eq_mod v m

/-! ## Claims -/

/-- C1: `parse_varint` fails with `NeedData` on empty input, with
`InvalidVarint` when the first byte is 0x00, and otherwise — with `k` the
count of leading zero bits of the first byte — consumes exactly `k + 1`
bytes (`NeedData` if fewer are available) and returns `absent` exactly
when all `7 * (k + 1)` value bits are 1, else the unsigned value of those
bits. -/
theorem parse_varint_spec (input : List Nat) (hbytes : ∀ b ∈ input, b < 256) :
    (input = [] → parseVarint input = .error .NeedData) ∧
    (∀ b rest, input = b :: rest →
      (b = 0 → parseVarint input = .error .InvalidVarint) ∧
      (b ≠ 0 →
        (input.length < countLeadingZeroBits b + 1 →
          parseVarint input = .error .NeedData) ∧
        (countLeadingZeroBits b + 1 ≤ input.length →
          parseVarint input =
            .ok (input.drop (countLeadingZeroBits b + 1),
              if beVal (input.take (countLeadingZeroBits b + 1)) %
                    2 ^ (7 * (countLeadingZeroBits b + 1)) =
                  2 ^ (7 * (countLeadingZeroBits b + 1)) - 1
              then none
              else some (beVal (input.take (countLeadingZeroBits b + 1)) %
                2 ^ (7 * (countLeadingZeroBits b + 1))))))) := by
  constructor
  · intro h; subst h; rfl
  intro b rest heq
  subst heq
  constructor
  · intro hb0
    subst hb0
    simp [parseVarint, countLeadingZeroBits_zero]
  · intro hbne
    have hk := countLeadingZeroBits_le_seven b hbne
    constructor
    · intro hlt
      simp only [parseVarint]
      rw [if_neg (by omega)]
      simp only [readBytes]
      rw [if_pos hlt]
    · intro hge
      simp only [parseVarint]
      rw [if_neg (by omega)]
      simp only [readBytes]
      rw [if_neg (by omega)]
      simp only [and_mask_eq_mod]
      simp only [Nat.one_shiftLeft]

/-- Witness for C1 on concrete inputs. -/
theorem parse_varint_spec_witness :
    parseVarint [0x53, 0xAC] = .ok ([], some 5036) ∧
    parseVarint [0x00] = .error .InvalidVarint ∧
    parseVarint [0x01, 0xFF, 0xFF, 0xFF, 0xFF, 0xFF, 0xFF, 0xFF] =
      .ok ([], none) := by
  have h1 := ((parse_varint_spec [0x53, 0xAC] (by decide)).2
    0x53 [0xAC] rfl).2 (by decide)
  have h2 := ((parse_varint_spec [0x00] (by decide)).2 0x00 [] rfl).1 rfl
  have h3 := ((parse_varint_spec [0x01, 0xFF, 0xFF, 0xFF, 0xFF, 0xFF, 0xFF, 0xFF]
    (by decide)).2 0x01 [0xFF, 0xFF, 0xFF, 0xFF, 0xFF, 0xFF, 0xFF] rfl).2 (by decide)
  refine ⟨?_, h2, ?_⟩
  · rw [(h1.2 (by decide))]; rfl
  · rw [(h3.2 (by decide))]; rfl

/-- `take` only fails with `NeedData`. -/
theorem readBytes_error (n : Nat) (input : List Nat) (e : Error)
    (h : readBytes n input = .error e) : e = .NeedData := by
  unfold readBytes at h
  split at h
  · injection h with h2
    exact h2.symm
  · exact absurd h (by simp)

/-- `parse_id` can only fail with `NeedData` or `InvalidId`. -/
theorem parseId_error (input : List Nat) (e : Error)
    (h : parseId input = .error e) : e = .NeedData ∨ e = .InvalidId := by
  cases input with
  | nil =>
    simp only [parseId] at h
    injection h with h2
    exact Or.inl h2.symm
  | cons b rest =>
    simp only [parseId] at h
    split at h
    · injection h with h2
      exact Or.inr h2.symm
    · cases hrb : readBytes (countLeadingZeroBits b + 1) (b :: rest) with
      | error e2 =>
        rw [hrb] at h
        injection h with h2
        rw [← h2]
        exact Or.inl (readBytes_error _ _ _ hrb)
      | ok p =>
        obtain ⟨r, vb⟩ := p
        rw [hrb] at h
        exact absurd h (by simp)

/-- `parse_varint` can only fail with `NeedData` or `InvalidVarint`. -/
theorem parseVarint_error (input : List Nat) (e : Error)
    (h : parseVarint input = .error e) : e = .NeedData ∨ e = .InvalidVarint := by
  cases input with
  | nil =>
    simp only [parseVarint] at h
    injection h with h2
    exact Or.inl h2.symm
  | cons b rest =>
    simp only [parseVarint] at h
    split at h
    · injection h with h2
      exact Or.inr h2.symm
    · cases hrb : readBytes (countLeadingZeroBits b + 1) (b :: rest) with
      | error e2 =>
        rw [hrb] at h
        injection h with h2
        rw [← h2]
        exact Or.inl (readBytes_error _ _ _ hrb)
      | ok p =>
        obtain ⟨r, vb⟩ := p
        rw [hrb] at h
        exact absurd h (by simp)

/-- C2: `parse_header` fails with `ForbiddenUnknownSize` exactly when the
size varint decodes to the unknown sentinel and the decoded id is neither
`Segment` nor `Cluster`; consequently a returned header has `body_size`
absent only for `Segment`/`Cluster`, and then `size` is absent as well. -/
theorem parse_header_unknown_size_spec (input : List Nat) :
    (parseHeader input = .error .ForbiddenUnknownSize ↔
      ∃ rest1 id rest2, parseId input = .ok (rest1, id) ∧
        parseVarint rest1 = .ok (rest2, none) ∧
        id ≠ .Segment ∧ id ≠ .Cluster) ∧
    (∀ rest h, parseHeader input = .ok (rest, h) →
      h.bodySize = none →
        (h.id = .Segment ∨ h.id = .Cluster) ∧ h.size = none) := by
  constructor
  · constructor
    · intro h
      cases hid : parseId input with
      | error e =>
        simp only [parseHeader, hid] at h
        injection h with h2
        cases parseId_error input e hid <;> simp_all
      | ok p =>
        obtain ⟨rest1, id⟩ := p
        cases hv : parseVarint rest1 with
        | error e =>
          simp only [parseHeader, hid, hv] at h
          injection h with h2
          cases parseVarint_error rest1 e hv <;> simp_all
        | ok q =>
          obtain ⟨rest2, bs⟩ := q
          simp only [parseHeader, hid, hv] at h
          by_cases hcond : bs = none ∧ id ≠ .Segment ∧ id ≠ .Cluster
          · exact ⟨rest1, id, rest2, rfl, by rw [hv, hcond.1],
              hcond.2.1, hcond.2.2⟩
          · rw [if_neg (by simpa using hcond)] at h
            cases bs <;> simp at h
    · rintro ⟨rest1, id, rest2, hid, hv, hs, hc⟩
      simp only [parseHeader, hid, hv]
      rw [if_pos (by simp [hs, hc])]
  · intro rest h hok hbs
    cases hid : parseId input with
    | error e =>
      simp only [parseHeader, hid] at hok
      exact absurd hok (by simp)
    | ok p =>
      obtain ⟨rest1, id⟩ := p
      cases hv : parseVarint rest1 with
      | error e =>
        simp only [parseHeader, hid, hv] at hok
        exact absurd hok (by simp)
      | ok q =>
        obtain ⟨rest2, bs⟩ := q
        simp only [parseHeader, hid, hv] at hok
        by_cases hcond : bs = none ∧ id ≠ .Segment ∧ id ≠ .Cluster
        · rw [if_pos (by simpa using hcond)] at hok
          exact absurd hok (by simp)
        · rw [if_neg (by simpa using hcond)] at hok
          cases bs with
          | some bodySize =>
            simp only [Except.ok.injEq, Prod.mk.injEq] at hok
            rw [← hok.2] at hbs
            simp [Header.new] at hbs
          | none =>
            simp only [Except.ok.injEq, Prod.mk.injEq] at hok
            rw [← hok.2]
            refine ⟨?_, rfl⟩
            by_contra hboth
            push_neg at hboth
            exact hcond ⟨rfl, hboth.1, hboth.2⟩

/-- Witness for C2 on concrete inputs: an unknown-size Segment header is
accepted with absent sizes; unknown size under `CodecPrivate`-style ids
is rejected. -/
theorem parse_header_unknown_size_spec_witness :
    parseHeader [0x18, 0x53, 0x80, 0x67, 0xFF] =
      .ok ([], Header.withUnknownSize .Segment 5) ∧
    parseHeader [0x63, 0xA2, 0xFF] = .error .ForbiddenUnknownSize := by
  constructor
  · rfl
  · have h := (parse_header_unknown_size_spec [0x63, 0xA2, 0xFF]).1.mpr
      ⟨[0xFF], .Unknown 0x63A2, [], by rfl, by rfl, by decide, by decide⟩
    exact h

/-- A SYNC id occurs as a window of the input at offset `o`. -/
def syncOccursAt (input : List Nat) (o : Nat) : Prop :=
  o + 4 ≤ input.length ∧ (input.drop o).take 4 ∈ syncIdBytes

instance (input : List Nat) (o : Nat) : Decidable (syncOccursAt input o) := by
  unfold syncOccursAt
  exact inferInstance

theorem syncOccursAt_cons (b : Nat) (rest : List Nat) (o : Nat) :
    syncOccursAt (b :: rest) (o + 1) ↔ syncOccursAt rest o := by
  unfold syncOccursAt
  simp

theorem findSync_none (input : List Nat) :
    findSync input = none ↔ ∀ o, ¬ syncOccursAt input o := by
  induction input with
  | nil =>
    simp only [findSync, true_iff]
    intro o ho
    have := ho.1
    simp at this
  | cons b rest ih =>
    by_cases hlen : (b :: rest).length < 4
    · simp only [findSync, if_pos hlen, true_iff]
      intro o ho
      have := ho.1
      omega
    · by_cases hwin : ((b :: rest).take 4) ∈ syncIdBytes
      · simp only [findSync, if_neg hlen, if_pos hwin]
        constructor
        · intro h; exact absurd h (by simp)
        · intro h
          exact absurd ⟨by omega, hwin⟩ (h 0)
      · simp only [findSync, if_neg hlen, if_neg hwin]
        rw [Option.map_eq_none']
        rw [ih]
        constructor
        · intro h o
          match o with
          | 0 => exact fun hc => hwin hc.2
          | o2 + 1 => rw [syncOccursAt_cons]; exact h o2
        · intro h o
          have := h (o + 1)
          rw [syncOccursAt_cons] at this
          exact this

theorem findSync_some (input : List Nat) (o : Nat)
    (h : findSync input = some o) :
    syncOccursAt input o ∧ ∀ o2 < o, ¬ syncOccursAt input o2 := by
  induction input generalizing o with
  | nil => simp [findSync] at h
  | cons b rest ih =>
    by_cases hlen : (b :: rest).length < 4
    · simp only [findSync, if_pos hlen] at h
      exact absurd h (by simp)
    · by_cases hwin : ((b :: rest).take 4) ∈ syncIdBytes
      · simp only [findSync, if_neg hlen, if_pos hwin, Option.some.injEq] at h
        subst h
        exact ⟨⟨by omega, hwin⟩, by omega⟩
      · simp only [findSync, if_neg hlen, if_neg hwin] at h
        rw [Option.map_eq_some'] at h
        obtain ⟨o2, ho2, rfl⟩ := h
        obtain ⟨hocc, hmin⟩ := ih o2 ho2
        refine ⟨(syncOccursAt_cons b rest o2).mpr hocc, ?_⟩
        intro o3 ho3
        match o3 with
        | 0 => exact fun hc => hwin hc.2
        | o4 + 1 =>
          rw [syncOccursAt_cons]
          exact hmin o4 (by omega)

theorem findSync_eq_of_least (input : List Nat) (o : Nat)
    (hocc : syncOccursAt input o) (hmin : ∀ o2 < o, ¬ syncOccursAt input o2) :
    findSync input = some o := by
  cases hfs : findSync input with
  | none => exact absurd hocc ((findSync_none input).mp hfs o)
  | some o2 =>
    obtain ⟨hocc2, hmin2⟩ := findSync_some input o2 hfs
    have h1 : ¬ o2 < o := fun hc => hmin o2 hc hocc2
    have h2 : ¬ o < o2 := fun hc => hmin2 o hc hocc
    have : o = o2 := by omega
    rw [this]

/-- C3: if any of the ten 4-byte SYNC ids occurs as a window of the
input, `find_valid_element` succeeds at the smallest such offset `o`,
returning an element with header
`{id: Corrupted, header_size: 0, body_size: o, total_size: o, position: absent}`
and body `Binary(Corrupted)`, consuming exactly the first `o` bytes (so
the SYNC id window itself stays unconsumed); if no SYNC id occurs it
fails with `ValidElementNotFound`. -/
theorem find_valid_element_spec (input : List Nat) :
    (∀ o, syncOccursAt input o → (∀ o2 < o, ¬ syncOccursAt input o2) →
      findValidElement input =
        .ok (input.drop o,
          { header := { id := .Corrupted, headerSize := 0, bodySize := some o,
                        size := some o, position := none }
            body := .Binary .Corrupted }) ∧
      ((input.drop o).take 4) ∈ syncIdBytes) ∧
    ((∀ o, ¬ syncOccursAt input o) →
      findValidElement input = .error .ValidElementNotFound) := by
  constructor
  · intro o hocc hmin
    refine ⟨?_, hocc.2⟩
    unfold findValidElement
    rw [findSync_eq_of_least input o hocc hmin]
    simp [Header.new]
  · intro hnone
    unfold findValidElement
    rw [(findSync_none input).mpr hnone]

/-- Witness for C3: the Rust test input whose damaged prefix is followed
by a Segment id at offset 4, and inputs with no SYNC window. -/
theorem find_valid_element_spec_witness :
    findValidElement [0x42, 0x87, 0x90, 0x01, 0x18, 0x53, 0x80, 0x67] =
      .ok ([0x18, 0x53, 0x80, 0x67],
        { header := { id := .Corrupted, headerSize := 0, bodySize := some 4,
                      size := some 4, position := none }
          body := .Binary .Corrupted }) ∧
    findValidElement [1, 2, 3, 4, 5, 6, 7, 8, 9, 10] =
      .error .ValidElementNotFound := by
  constructor
  · exact ((find_valid_element_spec
      [0x42, 0x87, 0x90, 0x01, 0x18, 0x53, 0x80, 0x67]).1 4
      (by decide) (by decide)).1
  · refine (find_valid_element_spec [1, 2, 3, 4, 5, 6, 7, 8, 9, 10]).2 ?_
    intro o ho
    have h1 := ho.1
    simp only [List.length_cons, List.length_nil] at h1
    have h2 : o ≤ 6 := by omega
    interval_cases o <;> exact absurd ho (by decide)

theorem trimEndNuls_append_zero (ys : List Nat) :
    trimEndNuls (ys ++ [0]) = trimEndNuls ys := by
  unfold trimEndNuls
  simp [List.dropWhile]

theorem trimEndNuls_append_nonzero (ys : List Nat) (x : Nat) (hx : x ≠ 0) :
    trimEndNuls (ys ++ [x]) = ys ++ [x] := by
  unfold trimEndNuls
  simp [List.dropWhile, hx]

/-- `trimEndNuls` splits off exactly the trailing zero bytes: the result
is a prefix whose last byte (if any) is nonzero, and the input is that
prefix followed by some number of NULs. -/
theorem trimEndNuls_spec (bytes : List Nat) :
    ∃ k, bytes = trimEndNuls bytes ++ List.replicate k 0 ∧
      (trimEndNuls bytes = [] ∨ (trimEndNuls bytes).getLast? ≠ some 0) := by
  induction bytes using List.reverseRecOn with
  | nil => exact ⟨0, by simp [trimEndNuls]⟩
  | append_singleton ys x ih =>
    by_cases hx : x = 0
    · subst hx
      obtain ⟨k, hk, hl⟩ := ih
      rw [trimEndNuls_append_zero]
      refine ⟨k + 1, ?_, hl⟩
      rw [List.replicate_succ', ← List.append_assoc, ← hk]
    · rw [trimEndNuls_append_nonzero ys x hx]
      refine ⟨0, by simp, Or.inr ?_⟩
      rw [List.getLast?_concat]
      simp [hx]

/-- C4 (amended): `parse_body` strips trailing NULs for `String`-typed
AND `Utf8`-typed elements alike (both call the same `parse_string`); the
returned bytes are the `body_size` decoded bytes minus exactly the
trailing run of NULs. -/
theorem parse_body_string_utf8_spec (header : Header) (input : List Nat)
    (bodySize : Nat) (hbs : header.bodySize = some bodySize)
    (hlen : bodySize ≤ input.length)
    (hvalid : validUtf8 (input.take bodySize) = true) :
    (header.id.getType = .Utf8 →
      parseBody header input =
        .ok (input.drop bodySize, .Utf8 (trimEndNuls (input.take bodySize)))) ∧
    (header.id.getType = .String →
      parseBody header input =
        .ok (input.drop bodySize, .String (trimEndNuls (input.take bodySize)))) ∧
    (∃ k, input.take bodySize =
        trimEndNuls (input.take bodySize) ++ List.replicate k 0 ∧
      (trimEndNuls (input.take bodySize) = [] ∨
        (trimEndNuls (input.take bodySize)).getLast? ≠ some 0)) := by
  have hr : readBytes bodySize input =
      .ok (input.drop bodySize, input.take bodySize) := by
    unfold readBytes
    rw [if_neg (by omega)]
  have hps : parseString header input =
      .ok (input.drop bodySize, trimEndNuls (input.take bodySize)) := by
    unfold parseString
    rw [hbs]
    simp only [hr, hvalid, if_true]
  refine ⟨?_, ?_, trimEndNuls_spec _⟩
  · intro ht
    unfold parseBody
    rw [ht, hps]
  · intro ht
    unfold parseBody
    rw [ht, hps]

/-- Counterexample to C4 as stated: a `Utf8`-typed element (`MuxingApp`)
whose 2-byte body is `61 00` parses to `Body::Utf8` holding only `61` —
the trailing NUL is stripped, not preserved. -/
theorem parse_body_utf8_preserved_counterexample :
    parseElement [0x4D, 0x80, 0x82, 0x61, 0x00] =
      .ok ([], { header := Header.new .MuxingApp 3 2, body := .Utf8 [0x61] }) ∧
    Body.Utf8 [0x61] ≠ Body.Utf8 [0x61, 0x00] := by
  constructor
  · rfl
  · decide

/-- Witness for the amended C4 on concrete inputs. -/
theorem parse_body_string_utf8_spec_witness :
    parseBody (Header.new .MuxingApp 3 2) [0x61, 0x00] =
      .ok ([], .Utf8 [0x61]) ∧
    parseBody (Header.new .DocType 3 6) [0x77, 0x65, 0x62, 0x6D, 0x00, 0x00] =
      .ok ([], .String [0x77, 0x65, 0x62, 0x6D]) := by
  have h1 := (parse_body_string_utf8_spec (Header.new .MuxingApp 3 2)
    [0x61, 0x00] 2 rfl (by decide) (by decide)).1 rfl
  have h2 := (parse_body_string_utf8_spec (Header.new .DocType 3 6)
    [0x77, 0x65, 0x62, 0x6D, 0x00, 0x00] 6 rfl (by decide) (by decide)).2.1 rfl
  constructor
  · rw [h1]; rfl
  · rw [h2]; rfl

/-- The exact instant the spec prescribes for a Date body, in integer
nanoseconds since the UNIX epoch: the EBML epoch 2001-01-01T00:00:00Z
plus the body offset, by exact integer nanosecond arithmetic (spec
§4.4 "Date"; used to compare the code against the claim). -/
def specDateNanos (offset : Int) : Int :=
  offset + nanos2001

/-- C7 (amended): for a Date-typed element with known `body_size` of at
most 8 bytes, `parse_date` interprets the body as a big-endian two's
complement nanosecond offset from 2001-01-01T00:00:00Z but truncates the
resulting instant toward zero to whole seconds (the sub-second part of
the offset is discarded, not reflected); the S8 example
`09 76 97 BD CA C9 1E 00` yields 2022-08-11T08:27:15Z
(UNIX seconds 1660206435). -/
theorem parse_date_spec (header : Header) (input : List Nat) (bodySize : Nat)
    (hbs : header.bodySize = some bodySize) (h8 : bodySize ≤ 8)
    (hlen : bodySize ≤ input.length) :
    parseDate header input =
      .ok (input.drop bodySize,
        Int.tdiv (specDateNanos (toSigned64 (beVal (input.take bodySize))))
          1000000000) ∧
    (header.id.getType = .Date →
      parseBody header input =
        .ok (input.drop bodySize,
          .Date (Int.tdiv (specDateNanos (toSigned64 (beVal (input.take bodySize))))
            1000000000))) ∧
    parseDate (Header.new .DateUtc 1 8)
        [0x09, 0x76, 0x97, 0xBD, 0xCA, 0xC9, 0x1E, 0x00] =
      .ok ([], 1660206435) := by
  have hr : readBytes bodySize input =
      .ok (input.drop bodySize, input.take bodySize) := by
    unfold readBytes
    rw [if_neg (by omega)]
  have hpd : parseDate header input =
      .ok (input.drop bodySize,
        Int.tdiv (specDateNanos (toSigned64 (beVal (input.take bodySize))))
          1000000000) := by
    unfold parseDate parseSignedInt parseIntRaw
    rw [hbs]
    simp only [hr, if_neg (by omega : ¬ bodySize > 8)]
    rfl
  refine ⟨hpd, ?_, by rfl⟩
  intro ht
  unfold parseBody
  rw [ht, hpd]

/-- Counterexample to C7 as stated: an offset of exactly 1 nanosecond is
not reflected in the result — the code returns the whole second
978307200 (instant 978307200000000000 ns), not the exact instant
978307200000000001 ns. -/
theorem parse_date_subsecond_counterexample :
    parseDate (Header.new .DateUtc 1 8) [0, 0, 0, 0, 0, 0, 0, 1] =
      .ok ([], 978307200) ∧
    (978307200 * 1000000000 : Int) ≠ specDateNanos 1 := by
  constructor
  · rfl
  · decide

/-- Witness for the amended C7 at the S8 input. -/
theorem parse_date_spec_witness :
    parseDate (Header.new .DateUtc 1 8)
        [0x09, 0x76, 0x97, 0xBD, 0xCA, 0xC9, 0x1E, 0x00] =
      .ok ([], 1660206435) := by
  exact (parse_date_spec (Header.new .DateUtc 1 8)
    [0x09, 0x76, 0x97, 0xBD, 0xCA, 0xC9, 0x1E, 0x00] 8
    rfl (by decide) (by decide)).2.2

/-- The lacing table of the spec: flag bits 2-1 map
`{01 → Xiph, 11 → Ebml, 10 → FixedSize, 00 → None}`. -/
def specLacing (flags : Nat) : Option Lacing :=
  match (flags / 2) % 4 with
  | 1 => some .Xiph
  | 3 => some .Ebml
  | 2 => some .FixedSize
  | _ => none

set_option maxRecDepth 4096 in
theorem getLacing_eq_specLacing : ∀ f, f < 256 → getLacing f = specLacing f := by
  decide

set_option maxRecDepth 4096 in
theorem isInvisible_eq_bit3 : ∀ f, f < 256 →
    isInvisible f = decide ((f / 8) % 2 = 1) := by
  decide

set_option maxRecDepth 4096 in
theorem keyframe_eq_bit7 : ∀ f, f < 256 →
    decide (f &&& (1 <<< 7) ≠ 0) = decide ((f / 128) % 2 = 1) := by
  decide

set_option maxRecDepth 4096 in
theorem discardable_eq_bit0 : ∀ f, f < 256 →
    decide (f &&& 0b1 ≠ 0) = decide (f % 2 = 1) := by
  decide

theorem beVal_pair (a b : Nat) : beVal [a, b] = a * 256 + b := by
  simp [beVal]

/-- `parse_i16` only fails with `NeedData`. -/
theorem parseI16_error (input : List Nat) (e : Error)
    (h : parseI16 input = .error e) : e = .NeedData := by
  unfold parseI16 at h
  cases hrb : readBytes 2 input with
  | error e2 =>
    rw [hrb] at h
    injection h with h2
    rw [← h2]
    exact readBytes_error _ _ _ hrb
  | ok p =>
    obtain ⟨r, b⟩ := p
    rw [hrb] at h
    exact absurd h (by simp)

theorem readBytes_ok (n : Nat) (input : List Nat)
    (p : List Nat × List Nat) (h : readBytes n input = .ok p) :
    p = (input.drop n, input.take n) ∧ n ≤ input.length := by
  unfold readBytes at h
  split at h
  · exact absurd h (by simp)
  · injection h with h2
    exact ⟨h2.symm, by omega⟩

/-- A successful `parse_varint` leaves a suffix of the input. -/
theorem parseVarint_ok_drop (input r : List Nat) (v : Option Nat)
    (h : parseVarint input = .ok (r, v)) : ∃ w, r = input.drop w := by
  cases input with
  | nil => simp [parseVarint] at h
  | cons b rest =>
    simp only [parseVarint] at h
    split at h
    · exact absurd h (by simp)
    · cases hrb : readBytes (countLeadingZeroBits b + 1) (b :: rest) with
      | error e => rw [hrb] at h; exact absurd h (by simp)
      | ok p =>
        obtain ⟨r2, vb⟩ := p
        obtain ⟨hp, -⟩ := readBytes_ok _ _ _ hrb
        rw [hrb] at h
        simp only [Except.ok.injEq, Prod.mk.injEq] at h
        refine ⟨countLeadingZeroBits b + 1, ?_⟩
        rw [← h.1]
        exact congrArg Prod.fst hp

/-- C8 (amended): `parse_block` and `parse_simple_block` fail with
`MissingTrackNumber` exactly when the track-number VINT decodes to the
unknown sentinel; on success they decode a 2-byte big-endian signed
timestamp, `invisible` from flag bit 3, lacing from flag bits 2-1
(`{01→Xiph, 11→Ebml, 10→FixedSize, 00→None}`), for SimpleBlock also
`keyframe` from bit 7 and `discardable` from bit 0, and with lacing
present they consume one further byte `n` and report
`num_frames = (n + 1) mod 256` (the `u8` increment wraps at `n = 255`);
`num_frames` is absent when lacing is absent. -/
theorem parse_block_simple_block_spec (input : List Nat)
    (hbytes : ∀ b ∈ input, b < 256) :
    (parseBlock input = .error .MissingTrackNumber ↔
      ∃ r, parseVarint input = .ok (r, none)) ∧
    (parseSimpleBlock input = .error .MissingTrackNumber ↔
      ∃ r, parseVarint input = .ok (r, none)) ∧
    (∀ tn b1 b2 f rest,
      parseVarint input = .ok (b1 :: b2 :: f :: rest, some tn) →
      (specLacing f = none →
        parseBlock input = .ok (rest,
          { trackNumber := tn
            timestamp := if b1 * 256 + b2 < 32768 then ((b1 * 256 + b2 : Nat) : Int)
              else ((b1 * 256 + b2 : Nat) : Int) - 65536
            invisible := decide ((f / 8) % 2 = 1)
            lacing := none
            numFrames := none }) ∧
        parseSimpleBlock input = .ok (rest,
          { trackNumber := tn
            timestamp := if b1 * 256 + b2 < 32768 then ((b1 * 256 + b2 : Nat) : Int)
              else ((b1 * 256 + b2 : Nat) : Int) - 65536
            keyframe := decide ((f / 128) % 2 = 1)
            invisible := decide ((f / 8) % 2 = 1)
            lacing := none
            discardable := decide (f % 2 = 1)
            numFrames := none })) ∧
      (∀ n rest2, rest = n :: rest2 → ∀ lac, specLacing f = some lac →
        parseBlock input = .ok (rest2,
          { trackNumber := tn
            timestamp := if b1 * 256 + b2 < 32768 then ((b1 * 256 + b2 : Nat) : Int)
              else ((b1 * 256 + b2 : Nat) : Int) - 65536
            invisible := decide ((f / 8) % 2 = 1)
            lacing := some lac
            numFrames := some ((n + 1) % 256) }) ∧
        parseSimpleBlock input = .ok (rest2,
          { trackNumber := tn
            timestamp := if b1 * 256 + b2 < 32768 then ((b1 * 256 + b2 : Nat) : Int)
              else ((b1 * 256 + b2 : Nat) : Int) - 65536
            keyframe := decide ((f / 128) % 2 = 1)
            invisible := decide ((f / 8) % 2 = 1)
            lacing := some lac
            discardable := decide (f % 2 = 1)
            numFrames := some ((n + 1) % 256) }))) := by
  refine ⟨⟨?_, ?_⟩, ⟨?_, ?_⟩, ?_⟩
  · -- parseBlock = MissingTrackNumber → sentinel
    intro h
    cases hv : parseVarint input with
    | error e =>
      simp only [parseBlock, hv] at h
      injection h with h2
      cases parseVarint_error input e hv <;> simp_all
    | ok p =>
      obtain ⟨r, v⟩ := p
      cases v with
      | none => exact ⟨r, rfl⟩
      | some tn =>
        simp only [parseBlock, hv] at h
        cases h16 : parseI16 r with
        | error e =>
          simp only [h16] at h
          injection h with h2
          have := parseI16_error r e h16
          simp_all
        | ok q =>
          obtain ⟨r2, ts⟩ := q
          simp only [h16] at h
          cases hrb : readBytes 1 r2 with
          | error e =>
            simp only [hrb] at h
            injection h with h2
            have := readBytes_error _ _ _ hrb
            simp_all
          | ok q2 =>
            obtain ⟨r3, fb⟩ := q2
            simp only [hrb] at h
            cases hl : getLacing fb.headI with
            | some lac =>
              simp only [hl] at h
              cases hrb2 : readBytes 1 r3 with
              | error e =>
                simp only [hrb2] at h
                injection h with h2
                have := readBytes_error _ _ _ hrb2
                simp_all
              | ok q3 =>
                obtain ⟨r4, nb⟩ := q3
                simp only [hrb2] at h
                exact absurd h (by simp)
            | none =>
              simp only [hl] at h
              exact absurd h (by simp)
  · -- sentinel → parseBlock = MissingTrackNumber
    rintro ⟨r, hv⟩
    simp only [parseBlock, hv]
  · -- parseSimpleBlock = MissingTrackNumber → sentinel
    intro h
    cases hv : parseVarint input with
    | error e =>
      simp only [parseSimpleBlock, hv] at h
      injection h with h2
      cases parseVarint_error input e hv <;> simp_all
    | ok p =>
      obtain ⟨r, v⟩ := p
      cases v with
      | none => exact ⟨r, rfl⟩
      | some tn =>
        simp only [parseSimpleBlock, hv] at h
        cases h16 : parseI16 r with
        | error e =>
          simp only [h16] at h
          injection h with h2
          have := parseI16_error r e h16
          simp_all
        | ok q =>
          obtain ⟨r2, ts⟩ := q
          simp only [h16] at h
          cases hrb : readBytes 1 r2 with
          | error e =>
            simp only [hrb] at h
            injection h with h2
            have := readBytes_error _ _ _ hrb
            simp_all
          | ok q2 =>
            obtain ⟨r3, fb⟩ := q2
            simp only [hrb] at h
            cases hl : getLacing fb.headI with
            | some lac =>
              simp only [hl] at h
              cases hrb2 : readBytes 1 r3 with
              | error e =>
                simp only [hrb2] at h
                injection h with h2
                have := readBytes_error _ _ _ hrb2
                simp_all
              | ok q3 =>
                obtain ⟨r4, nb⟩ := q3
                simp only [hrb2] at h
                exact absurd h (by simp)
            | none =>
              simp only [hl] at h
              exact absurd h (by simp)
  · -- sentinel → parseSimpleBlock = MissingTrackNumber
    rintro ⟨r, hv⟩
    simp only [parseSimpleBlock, hv]
  · -- success shape
    intro tn b1 b2 f rest hv
    have hf : f < 256 := by
      obtain ⟨w, hw⟩ := parseVarint_ok_drop input _ _ hv
      refine hbytes f (List.drop_subset w input ?_)
      rw [← hw]
      simp
    have h16 : parseI16 (b1 :: b2 :: f :: rest) =
        .ok (f :: rest, if b1 * 256 + b2 < 32768 then ((b1 * 256 + b2 : Nat) : Int)
          else ((b1 * 256 + b2 : Nat) : Int) - 65536) := by
      unfold parseI16 readBytes
      rw [if_neg (by simp)]
      simp only [List.take, List.drop, beVal_pair]
      norm_num
    have hrb1 : readBytes 1 (f :: rest) = .ok (rest, [f]) := by
      unfold readBytes
      rw [if_neg (by simp)]
      rfl
    constructor
    · intro hlac
      have hgl : getLacing f = none := by
        rw [getLacing_eq_specLacing f hf, hlac]
      constructor
      · simp only [parseBlock, hv, h16, hrb1, List.headI, hgl]
        rw [isInvisible_eq_bit3 f hf]
      · simp only [parseSimpleBlock, hv, h16, hrb1, List.headI, hgl]
        rw [isInvisible_eq_bit3 f hf, keyframe_eq_bit7 f hf,
          discardable_eq_bit0 f hf]
    · intro n rest2 hrest lac hlac
      subst hrest
      have hgl : getLacing f = some lac := by
        rw [getLacing_eq_specLacing f hf, hlac]
      have hrb2 : readBytes 1 (n :: rest2) = .ok (rest2, [n]) := by
        unfold readBytes
        rw [if_neg (by simp)]
        rfl
      constructor
      · simp only [parseBlock, hv, h16, hrb1, List.headI, hgl, hrb2]
        rw [isInvisible_eq_bit3 f hf]
      · simp only [parseSimpleBlock, hv, h16, hrb1, List.headI, hgl, hrb2]
        rw [isInvisible_eq_bit3 f hf, keyframe_eq_bit7 f hf,
          discardable_eq_bit0 f hf]

/-- Counterexample to C8 as stated: with lacing present and lace byte
`n = 0xFF`, the code reports `num_frames = 0` (the `u8` sum `n + 1`
wraps), not `n + 1 = 256`. -/
theorem parse_block_numframes_counterexample :
    parseBlock [0x81, 0x00, 0x00, 0x06, 0xFF] =
      .ok ([], { trackNumber := 1, timestamp := 0, invisible := false,
                 lacing := some .Ebml, numFrames := some 0 }) ∧
    (0 : Nat) ≠ 0xFF + 1 := by
  constructor
  · rfl
  · decide

/-- Witness for the amended C8 on concrete inputs. -/
theorem parse_block_simple_block_spec_witness :
    parseBlock [0x81, 0x0F, 0x7A, 0x00] =
      .ok ([], { trackNumber := 1, timestamp := 3962, invisible := false,
                 lacing := none, numFrames := none }) ∧
    parseBlock [0x01, 0xFF, 0xFF, 0xFF, 0xFF, 0xFF, 0xFF, 0xFF] =
      .error .MissingTrackNumber ∧
    parseSimpleBlock [0x81, 0x00, 0x00, 0x06, 0xFF] =
      .ok ([], { trackNumber := 1, timestamp := 0, keyframe := false,
                 invisible := false, lacing := some .Ebml,
                 discardable := false, numFrames := some 0 }) := by
  have hspec := parse_block_simple_block_spec [0x81, 0x0F, 0x7A, 0x00] (by decide)
  have h1 := ((hspec.2.2 1 0x0F 0x7A 0x00 [] (by rfl)).1 (by decide)).1
  have hspec2 := parse_block_simple_block_spec
    [0x01, 0xFF, 0xFF, 0xFF, 0xFF, 0xFF, 0xFF, 0xFF] (by decide)
  have h2 := hspec2.1.mpr ⟨[], by rfl⟩
  have hspec3 := parse_block_simple_block_spec [0x81, 0x00, 0x00, 0x06, 0xFF]
    (by decide)
  have h3 := ((hspec3.2.2 1 0x00 0x00 0x06 [0xFF] (by rfl)).2 0xFF [] rfl
    .Ebml (by decide)).2
  refine ⟨?_, h2, ?_⟩
  · rw [h1]; rfl
  · rw [h3]; rfl

/-! ## Tree builder lemmas (C5, C6) -/

theorem buildElementTrees_nil : buildElementTrees [] = .ok [] := by
  simp [buildElementTrees]

theorem buildElementTrees_cons_nonmaster (e : Element) (rest : List Element)
    (hm : e.body ≠ .Master) :
    buildElementTrees (e :: rest) =
      match buildElementTrees rest with
      | .error err => .error err
      | .ok restTrees => .ok (.Normal e :: restTrees) := by
  cases hb : e.body <;> simp_all [buildElementTrees]

theorem buildElementTrees_cons_master (e : Element) (rest : List Element)
    (hm : e.body = .Master) :
    buildElementTrees (e :: rest) =
      match collectChildren e.header.id rest (e.header.bodySize.getD usizeMax) with
      | .error err => .error err
      | .ok (children, left) =>
        match buildElementTrees children with
        | .error err => .error err
        | .ok childTrees =>
          match buildElementTrees left with
          | .error err => .error err
          | .ok restTrees => .ok (.Master e.header childTrees :: restTrees) := by
  simp only [buildElementTrees, hm]
  cases collectChildren e.header.id rest (e.header.bodySize.getD usizeMax) with
  | error err => rfl
  | ok p =>
    obtain ⟨children, left⟩ := p
    rfl

/-- Every collected child passed the admissibility check against the
parent id. -/
theorem collectChildren_admissible (parentId : Id) :
    ∀ (rest : List Element) (sizeRemaining : Nat) (children left : List Element),
      collectChildren parentId rest sizeRemaining = .ok (children, left) →
      ∀ e ∈ children, canBeChildrenOf e.header.id parentId = true := by
  intro rest
  induction rest with
  | nil =>
    intro sr children left h e he
    unfold collectChildren at h
    by_cases hsr : sr = 0 <;> simp [hsr] at h <;> simp_all
  | cons nextChild rest2 ih =>
    intro sr children left h e he
    unfold collectChildren at h
    by_cases hsr : sr = 0
    · simp [hsr] at h
      obtain ⟨h1, -⟩ := h
      subst h1
      simp at he
    · simp [hsr] at h
      by_cases hc : canBeChildrenOf nextChild.header.id parentId
      · simp [hc] at h
        cases hcs : countedSize nextChild with
        | none => rw [hcs] at h; simp at h
        | some counted =>
          rw [hcs] at h
          simp at h
          cases hrec : collectChildren parentId rest2 (wrapSub sr counted) with
          | error err => rw [hrec] at h; simp at h
          | ok p =>
            rw [hrec] at h
            simp at h
            obtain ⟨h1, -⟩ := h
            rw [← h1] at he
            rcases List.mem_cons.mp he with heq | hmem
            · subst heq; exact hc
            · exact ih _ p.1 p.2 (by rw [hrec]) e hmem
      · simp [hc] at h
        obtain ⟨h1, -⟩ := h
        subst h1
        simp at he

/-- With every non-Master element carrying a known size, the child loop
cannot hit the `expect` panic. -/
theorem collectChildren_isOk (parentId : Id) :
    ∀ (rest : List Element) (sizeRemaining : Nat),
      (∀ e ∈ rest, e.body ≠ .Master → e.header.size ≠ none) →
      ∃ p, collectChildren parentId rest sizeRemaining = .ok p := by
  intro rest
  induction rest with
  | nil =>
    intro sr hs
    unfold collectChildren
    by_cases hsr : sr = 0 <;> simp [hsr]
  | cons nextChild rest2 ih =>
    intro sr hs
    unfold collectChildren
    by_cases hsr : sr = 0
    · simp [hsr]
    · simp only [hsr, if_neg, if_false]
      by_cases hc : canBeChildrenOf nextChild.header.id parentId
      · simp only [hc, if_true]
        have hcs : ∃ c, countedSize nextChild = some c := by
          unfold countedSize
          cases hb : nextChild.body with
          | Master => exact ⟨nextChild.header.headerSize, rfl⟩
          | _ =>
            have hnm := hs nextChild (by simp) (by rw [hb]; simp)
            cases hsz : nextChild.header.size with
            | none => exact absurd hsz hnm
            | some c => exact ⟨c, rfl⟩
        obtain ⟨c, hcs⟩ := hcs
        simp only [hcs]
        obtain ⟨p, hp⟩ := ih (wrapSub sr c)
          (fun e he hm => hs e (by simp [he]) hm)
        obtain ⟨pc, pl⟩ := p
        simp only [hp]
        exact ⟨(nextChild :: pc, pl), rfl⟩
      · simp [hc]

/-- With every non-Master element carrying a known size, the tree
builder succeeds on any sequence. -/
theorem buildElementTrees_isOk :
    ∀ (n : Nat) (elements : List Element), elements.length ≤ n →
      (∀ e ∈ elements, e.body ≠ .Master → e.header.size ≠ none) →
      ∃ trees, buildElementTrees elements = .ok trees := by
  intro n
  induction n with
  | zero =>
    intro elements hlen hs
    have : elements = [] := List.length_eq_zero.mp (by omega)
    subst this
    exact ⟨[], buildElementTrees_nil⟩
  | succ n ih =>
    intro elements hlen hs
    cases elements with
    | nil => exact ⟨[], buildElementTrees_nil⟩
    | cons e rest =>
      by_cases hm : e.body = .Master
      · rw [buildElementTrees_cons_master e rest hm]
        obtain ⟨⟨children, left⟩, hcol⟩ := collectChildren_isOk e.header.id rest
          (e.header.bodySize.getD usizeMax)
          (fun x hx => hs x (by simp [hx]))
        simp only [hcol]
        have hsplit := collectChildren_append e.header.id rest
          (e.header.bodySize.getD usizeMax) children left hcol
        have hlc : children.length + left.length = rest.length :=
          collectChildren_length e.header.id rest
            (e.header.bodySize.getD usizeMax) children left hcol
        have hmemc : ∀ x ∈ children, x ∈ rest := by
          intro x hx
          rw [← hsplit]
          exact List.mem_append_left left hx
        have hmeml : ∀ x ∈ left, x ∈ rest := by
          intro x hx
          rw [← hsplit]
          exact List.mem_append_right children hx
        obtain ⟨cts, hcts⟩ := ih children (by simp at hlen; omega)
          (fun x hx => hs x (by simp [hmemc x hx]))
        obtain ⟨lts, hlts⟩ := ih left (by simp at hlen; omega)
          (fun x hx => hs x (by simp [hmeml x hx]))
        simp only [hcts, hlts]
        exact ⟨_, rfl⟩
      · rw [buildElementTrees_cons_nonmaster e rest hm]
        obtain ⟨rts, hrts⟩ := ih rest (by simp at hlen; omega)
          (fun x hx => hs x (by simp [hx]))
        simp only [hrts]
        exact ⟨_, rfl⟩

/-- C5 (amended): `build_element_trees` is total and never fails on
sequences in which every non-Master element carries a known size (the
invariant the parser guarantees); a child whose counted size exceeds the
remaining budget is still admitted (the inner loop subtracts with
wrapping 64-bit arithmetic and only exits via the admissibility check,
the exhausted budget, or the end of the sequence).  On sequences
containing a non-Master element of unknown size the builder panics
(modelled as an error), so it is not total on arbitrary element
sequences. -/
theorem build_element_trees_total_spec (elements : List Element)
    (hsizes : ∀ e ∈ elements, e.body ≠ .Master → e.header.size ≠ none) :
    (∃ trees, buildElementTrees elements = .ok trees) ∧
    (∀ parentId sizeRemaining next rest2 children left,
      sizeRemaining ≠ 0 →
      canBeChildrenOf next.header.id parentId = true →
      ∀ c, countedSize next = some c →
      collectChildren parentId (next :: rest2) sizeRemaining =
        .ok (children, left) →
      next ∈ children) := by
  constructor
  · exact buildElementTrees_isOk elements.length elements le_rfl hsizes
  · intro parentId sr next rest2 children left hsr hadm c hcs hcol
    unfold collectChildren at hcol
    simp only [hsr, if_false, hadm, if_true, hcs] at hcol
    cases hrec : collectChildren parentId rest2 (wrapSub sr c) with
    | error err =>
      simp only [hrec] at hcol
      exact absurd hcol (by simp)
    | ok p =>
      obtain ⟨pc, pl⟩ := p
      simp only [hrec, Except.ok.injEq, Prod.mk.injEq] at hcol
      rw [← hcol.1]
      exact List.mem_cons_self next pc

/-- Counterexample to C5 as stated: `build_element_trees` is not total
with no panic on every input sequence — a non-Master element with
unknown size under a known-size Master hits the
`expect("Only Master elements can have unknown size")` panic. -/
theorem build_element_trees_total_counterexample :
    buildElementTrees
      [{ header := Header.new .Segment 5 10, body := .Master },
       { header := Header.withUnknownSize (.Unknown 5) 2,
         body := .Binary .Void }] =
      .error "Only Master elements can have unknown size" := by
  simp [buildElementTrees, collectChildren, canBeChildrenOf, countedSize,
    Header.new, Header.withUnknownSize, usizeMax]

/-- Witness for the amended C5: a sequence whose second element exceeds
the Master parent budget (total size 4 against remaining 1) still builds
successfully, and the over-budget child is admitted. -/
theorem build_element_trees_total_spec_witness :
    (∃ trees, buildElementTrees
      [{ header := Header.new .Segment 5 1, body := .Master },
       { header := Header.new .EbmlVersion 3 1,
         body := .Unsigned (.Standard 1) }] = .ok trees) ∧
    ({ header := Header.new .EbmlVersion 3 1,
       body := .Unsigned (.Standard 1) } : Element) ∈
      [({ header := Header.new .EbmlVersion 3 1,
          body := .Unsigned (.Standard 1) } : Element)] := by
  have hspec := build_element_trees_total_spec
    [{ header := Header.new .Segment 5 1, body := .Master },
     { header := Header.new .EbmlVersion 3 1, body := .Unsigned (.Standard 1) }]
    (by decide)
  refine ⟨hspec.1, ?_⟩
  exact hspec.2 .Segment 1
    { header := Header.new .EbmlVersion 3 1, body := .Unsigned (.Standard 1) }
    []
    [{ header := Header.new .EbmlVersion 3 1, body := .Unsigned (.Standard 1) }]
    [] (by decide) (by decide) 4 (by decide) (by rfl)

/-- The id at the root of a tree node. -/
def treeId : ElementTree → Id
  | .Normal e => e.header.id
  | .Master h _ => h.id

/-- All nodes of a forest, in preorder. -/
def nodesList : List ElementTree → List ElementTree
  | [] => []
  | .Normal e :: ts => .Normal e :: nodesList ts
  | .Master h cs :: ts => .Master h cs :: (nodesList cs ++ nodesList ts)

/-- The strict descendants of a tree node. -/
def strictBelow : ElementTree → List ElementTree
  | .Normal _ => []
  | .Master _ cs => nodesList cs

theorem canBeChildrenOf_false_iff (c p : Id) :
    canBeChildrenOf c p = false ↔ ((c = .Cluster ∧ p = .Cluster) ∨ c = .Ebml) := by
  unfold canBeChildrenOf
  cases c <;> cases p <;> simp

/-- Strong-induction invariant for the built forest: every node id comes
from the input sequence, and the two child exclusions hold everywhere. -/
theorem build_element_trees_invariant :
    ∀ (n : Nat) (elements : List Element) (trees : List ElementTree),
      elements.length ≤ n →
      buildElementTrees elements = .ok trees →
      (∀ t ∈ nodesList trees, ∃ e ∈ elements, treeId t = e.header.id) ∧
      (∀ t ∈ nodesList trees,
        (treeId t = .Cluster → ∀ d ∈ strictBelow t, treeId d ≠ .Cluster) ∧
        (∀ d ∈ strictBelow t, treeId d ≠ .Ebml)) := by
  intro n
  induction n with
  | zero =>
    intro elements trees hlen hb
    have : elements = [] := List.length_eq_zero.mp (by omega)
    subst this
    rw [buildElementTrees_nil] at hb
    injection hb with hb
    subst hb
    simp [nodesList]
  | succ n ih =>
    intro elements trees hlen hb
    cases elements with
    | nil =>
      rw [buildElementTrees_nil] at hb
      injection hb with hb
      subst hb
      simp [nodesList]
    | cons e rest =>
      by_cases hm : e.body = .Master
      · rw [buildElementTrees_cons_master e rest hm] at hb
        cases hcol : collectChildren e.header.id rest
            (e.header.bodySize.getD usizeMax) with
        | error err =>
          simp only [hcol] at hb
          exact absurd hb (by simp)
        | ok p =>
          obtain ⟨children, left⟩ := p
          simp only [hcol] at hb
          cases hcts : buildElementTrees children with
          | error err =>
            simp only [hcts] at hb
            exact absurd hb (by simp)
          | ok childTrees =>
            simp only [hcts] at hb
            cases hlts : buildElementTrees left with
            | error err =>
              simp only [hlts] at hb
              exact absurd hb (by simp)
            | ok restTrees =>
              simp only [hlts, Except.ok.injEq] at hb
              subst hb
              have hsplit := collectChildren_append e.header.id rest
                (e.header.bodySize.getD usizeMax) children left hcol
              have hlc := collectChildren_length e.header.id rest
                (e.header.bodySize.getD usizeMax) children left hcol
              have hadm := collectChildren_admissible e.header.id rest
                (e.header.bodySize.getD usizeMax) children left hcol
              obtain ⟨ihc1, ihc2⟩ := ih children childTrees
                (by simp at hlen; omega) hcts
              obtain ⟨ihl1, ihl2⟩ := ih left restTrees
                (by simp at hlen; omega) hlts
              have hmemc : ∀ x ∈ children, x ∈ rest := by
                intro x hx
                rw [← hsplit]
                exact List.mem_append_left left hx
              have hmeml : ∀ x ∈ left, x ∈ rest := by
                intro x hx
                rw [← hsplit]
                exact List.mem_append_right children hx
              -- child node ids never violate admissibility w.r.t. e
              have hchildIds : ∀ d ∈ nodesList childTrees,
                  canBeChildrenOf (treeId d) e.header.id = true := by
                intro d hd
                obtain ⟨c, hc, hcid⟩ := ihc1 d hd
                rw [hcid]
                exact hadm c hc
              constructor
              · intro t ht
                simp only [nodesList, List.mem_cons, List.mem_append] at ht
                rcases ht with rfl | hin | hin
                · exact ⟨e, by simp, rfl⟩
                · obtain ⟨c, hc, hcid⟩ := ihc1 t hin
                  exact ⟨c, by simp [hmemc c hc], hcid⟩
                · obtain ⟨c, hc, hcid⟩ := ihl1 t hin
                  exact ⟨c, by simp [hmeml c hc], hcid⟩
              · intro t ht
                simp only [nodesList, List.mem_cons, List.mem_append] at ht
                rcases ht with rfl | hin | hin
                · constructor
                  · intro hroot d hd
                    simp only [strictBelow] at hd
                    have := hchildIds d hd
                    simp only [treeId] at hroot
                    rw [hroot] at this
                    intro hdc
                    rw [hdc] at this
                    rw [show canBeChildrenOf .Cluster .Cluster = false by rfl]
                      at this
                    exact Bool.false_ne_true this
                  · intro d hd
                    simp only [strictBelow] at hd
                    have := hchildIds d hd
                    intro hde
                    rw [hde] at this
                    have hfalse : canBeChildrenOf .Ebml e.header.id = false := by
                      rw [canBeChildrenOf_false_iff]
                      exact Or.inr rfl
                    rw [hfalse] at this
                    exact Bool.false_ne_true this
                · exact ihc2 t hin
                · exact ihl2 t hin
      · rw [buildElementTrees_cons_nonmaster e rest hm] at hb
        cases hrts : buildElementTrees rest with
        | error err =>
          simp only [hrts] at hb
          exact absurd hb (by simp)
        | ok restTrees =>
          simp only [hrts, Except.ok.injEq] at hb
          subst hb
          obtain ⟨ih1, ih2⟩ := ih rest restTrees (by simp at hlen; omega) hrts
          constructor
          · intro t ht
            simp only [nodesList, List.mem_cons] at ht
            rcases ht with rfl | hin
            · exact ⟨e, by simp, rfl⟩
            · obtain ⟨c, hc, hcid⟩ := ih1 t hin
              exact ⟨c, by simp [hc], hcid⟩
          · intro t ht
            simp only [nodesList, List.mem_cons] at ht
            rcases ht with rfl | hin
            · exact ⟨by intro h d hd; simp [strictBelow] at hd,
                by intro d hd; simp [strictBelow] at hd⟩
            · exact ih2 t hin

/-- C6: the admissibility predicate `can_be_children_of` is true for
every pair of ids except `(Cluster, Cluster)` and `(Ebml, anything)`,
and in every forest returned by `build_element_trees` no Cluster node
has a Cluster strict descendant (at any depth) and no Ebml node is a
strict descendant of any node. -/
theorem build_element_trees_child_exclusions :
    (∀ c p, canBeChildrenOf c p = false ↔
      ((c = .Cluster ∧ p = .Cluster) ∨ c = .Ebml)) ∧
    (∀ elements trees, buildElementTrees elements = .ok trees →
      ∀ t ∈ nodesList trees,
        (treeId t = .Cluster → ∀ d ∈ strictBelow t, treeId d ≠ .Cluster) ∧
        (∀ d ∈ strictBelow t, treeId d ≠ .Ebml)) := by
  refine ⟨canBeChildrenOf_false_iff, ?_⟩
  intro elements trees hb
  exact (build_element_trees_invariant elements.length elements trees
    le_rfl hb).2

/-- Witness for C6: in the forest built from an `Ebml` master followed
by one child, the child node below the root is not `Ebml` (the theorem
applies with all hypotheses discharged concretely). -/
theorem build_element_trees_child_exclusions_witness :
    treeId (ElementTree.Normal
      ⟨Header.new .EbmlVersion 3 1, .Unsigned (.Standard 1)⟩) ≠ .Ebml := by
  have hb : buildElementTrees
      [⟨Header.new .Ebml 5 4, .Master⟩,
       ⟨Header.new .EbmlVersion 3 1, .Unsigned (.Standard 1)⟩] =
      .ok [ElementTree.Master (Header.new .Ebml 5 4)
        [ElementTree.Normal
          ⟨Header.new .EbmlVersion 3 1, .Unsigned (.Standard 1)⟩]] := by
    simp [buildElementTrees, collectChildren, canBeChildrenOf, countedSize,
      wrapSub, Header.new, usizeMax]
  exact ((build_element_trees_child_exclusions.2 _ _ hb
    (ElementTree.Master (Header.new .Ebml 5 4)
      [ElementTree.Normal
        ⟨Header.new .EbmlVersion 3 1, .Unsigned (.Standard 1)⟩])
    (by simp [nodesList])).2
    (ElementTree.Normal
      ⟨Header.new .EbmlVersion 3 1, .Unsigned (.Standard 1)⟩)
    (by simp [strictBelow, nodesList]))

/-! ## Consumption lemmas for the driver (C9) -/

theorem parseId_ok_drop (input r : List Nat) (id : Id)
    (h : parseId input = .ok (r, id)) : ∃ w, r = input.drop w := by
  cases input with
  | nil => simp [parseId] at h
  | cons b rest =>
    simp only [parseId] at h
    split at h
    · exact absurd h (by simp)
    · cases hrb : readBytes (countLeadingZeroBits b + 1) (b :: rest) with
      | error e => rw [hrb] at h; exact absurd h (by simp)
      | ok p =>
        obtain ⟨hp, -⟩ := readBytes_ok _ _ _ hrb
        rw [hrb] at h
        simp only [Except.ok.injEq, Prod.mk.injEq] at h
        refine ⟨countLeadingZeroBits b + 1, ?_⟩
        rw [← h.1]
        rw [hp]

theorem parseHeader_consumes (input rest : List Nat) (h : Header)
    (hph : parseHeader input = .ok (rest, h)) :
    input.length = h.headerSize + rest.length ∧
    (∀ bs, h.bodySize = some bs → h.size = some (h.headerSize + bs)) ∧
    (h.bodySize = none → h.size = none) := by
  cases hid : parseId input with
  | error e =>
    simp only [parseHeader, hid] at hph
    exact absurd hph (by simp)
  | ok p =>
    obtain ⟨rest1, id⟩ := p
    cases hv : parseVarint rest1 with
    | error e =>
      simp only [parseHeader, hid, hv] at hph
      exact absurd hph (by simp)
    | ok q =>
      obtain ⟨rest2, bs⟩ := q
      simp only [parseHeader, hid, hv] at hph
      obtain ⟨w1, hw1⟩ := parseId_ok_drop input rest1 id hid
      obtain ⟨w2, hw2⟩ := parseVarint_ok_drop rest1 rest2 bs hv
      have hle : rest2.length ≤ input.length := by
        rw [hw2, hw1]
        simp only [List.length_drop]
        omega
      by_cases hcond : bs = none ∧ id ≠ .Segment ∧ id ≠ .Cluster
      · rw [if_pos (by simpa using hcond)] at hph
        exact absurd hph (by simp)
      · rw [if_neg (by simpa using hcond)] at hph
        cases bs with
        | some bodySize =>
          simp only [Except.ok.injEq, Prod.mk.injEq] at hph
          obtain ⟨hr, hh⟩ := hph
          subst hr
          rw [← hh]
          refine ⟨by simp [Header.new]; omega, ?_, ?_⟩
          · intro bs2 hbs2
            simp [Header.new] at hbs2
            simp [Header.new, hbs2]
          · intro hbs2
            simp [Header.new] at hbs2
        | none =>
          simp only [Except.ok.injEq, Prod.mk.injEq] at hph
          obtain ⟨hr, hh⟩ := hph
          subst hr
          rw [← hh]
          refine ⟨by simp [Header.withUnknownSize]; omega, ?_, ?_⟩
          · intro bs2 hbs2
            simp [Header.withUnknownSize] at hbs2
          · intro hbs2
            simp [Header.withUnknownSize]

theorem parseIntRaw_consumes (header : Header) (input r : List Nat) (v : Nat)
    (h : parseIntRaw header input = .ok (r, v)) :
    ∃ bs, header.bodySize = some bs ∧ input.length = bs + r.length := by
  unfold parseIntRaw at h
  cases hbs : header.bodySize with
  | none => rw [hbs] at h; exact absurd h (by simp)
  | some bs =>
    simp only [hbs] at h
    split at h
    · exact absurd h (by simp)
    · cases hrb : readBytes bs input with
      | error e => simp only [hrb] at h; exact absurd h (by simp)
      | ok p =>
        obtain ⟨hp, hl⟩ := readBytes_ok _ _ _ hrb
        simp only [hrb] at h
        simp only [Except.ok.injEq, Prod.mk.injEq] at h
        refine ⟨bs, rfl, ?_⟩
        rw [← h.1, hp]
        simp
        omega

theorem parseString_consumes (header : Header) (input r s : List Nat)
    (h : parseString header input = .ok (r, s)) :
    ∃ bs, header.bodySize = some bs ∧ input.length = bs + r.length := by
  unfold parseString at h
  cases hbs : header.bodySize with
  | none => rw [hbs] at h; exact absurd h (by simp)
  | some bs =>
    simp only [hbs] at h
    cases hrb : readBytes bs input with
    | error e => simp only [hrb] at h; exact absurd h (by simp)
    | ok p =>
      obtain ⟨hp, hl⟩ := readBytes_ok _ _ _ hrb
      simp only [hrb] at h
      split at h
      · simp only [Except.ok.injEq, Prod.mk.injEq] at h
        refine ⟨bs, rfl, ?_⟩
        rw [← h.1, hp]
        simp
        omega
      · exact absurd h (by simp)

theorem parseBinary_consumes (header : Header) (input r b : List Nat)
    (h : parseBinary header input = .ok (r, b)) :
    ∃ bs, header.bodySize = some bs ∧ input.length = bs + r.length := by
  unfold parseBinary at h
  cases hbs : header.bodySize with
  | none => rw [hbs] at h; exact absurd h (by simp)
  | some bs =>
    simp only [hbs] at h
    obtain ⟨hp, hl⟩ := readBytes_ok _ _ _ h
    simp only [Prod.mk.injEq] at hp
    refine ⟨bs, rfl, ?_⟩
    rw [hp.1]
    simp only [List.length_drop]
    omega

theorem parseFloat_consumes (header : Header) (input r b : List Nat)
    (h : parseFloat header input = .ok (r, b)) :
    ∃ bs, header.bodySize = some bs ∧ input.length = bs + r.length := by
  unfold parseFloat at h
  cases hbs : header.bodySize with
  | none => rw [hbs] at h; exact absurd h (by simp)
  | some bs =>
    simp only [hbs] at h
    refine ⟨bs, rfl, ?_⟩
    split at h
    · obtain ⟨hp, hl⟩ := readBytes_ok _ _ _ h
      simp only [Prod.mk.injEq] at hp
      rw [hp.1]
      simp only [List.length_drop]
      omega
    · split at h
      · obtain ⟨hp, hl⟩ := readBytes_ok _ _ _ h
        simp only [Prod.mk.injEq] at hp
        rw [hp.1]
        simp only [List.length_drop]
        omega
      · split at h
        · simp only [Except.ok.injEq, Prod.mk.injEq] at h
          rw [← h.1]
          omega
        · exact absurd h (by simp)

theorem parseBody_consumes (header : Header) (input rest : List Nat)
    (body : Body) (h : parseBody header input = .ok (rest, body)) :
    (body = .Master ∧ rest = input) ∨
    (body ≠ .Master ∧
      ∃ bs, header.bodySize = some bs ∧ input.length = bs + rest.length) := by
  unfold parseBody at h
  cases hty : header.id.getType with
  | Master =>
    simp only [hty] at h
    simp only [Except.ok.injEq, Prod.mk.injEq] at h
    exact Or.inl ⟨h.2.symm, h.1.symm⟩
  | Unsigned =>
    simp only [hty] at h
    cases hint : parseUnsignedInt header input with
    | error e => simp only [hint] at h; exact absurd h (by simp)
    | ok p =>
      obtain ⟨r, v⟩ := p
      simp only [hint, Except.ok.injEq, Prod.mk.injEq] at h
      refine Or.inr ⟨by rw [← h.2]; simp, ?_⟩
      obtain ⟨bs, h1, h2⟩ := parseIntRaw_consumes header input r v hint
      exact ⟨bs, h1, by rw [← h.1]; exact h2⟩
  | Signed =>
    simp only [hty] at h
    cases hint : parseSignedInt header input with
    | error e => simp only [hint] at h; exact absurd h (by simp)
    | ok p =>
      obtain ⟨r, v⟩ := p
      simp only [hint, Except.ok.injEq, Prod.mk.injEq] at h
      refine Or.inr ⟨by rw [← h.2]; simp, ?_⟩
      unfold parseSignedInt at hint
      cases hraw : parseIntRaw header input with
      | error e => rw [hraw] at hint; exact absurd hint (by simp)
      | ok q =>
        obtain ⟨r2, v2⟩ := q
        rw [hraw] at hint
        simp only [Except.ok.injEq, Prod.mk.injEq] at hint
        obtain ⟨bs, h1, h2⟩ := parseIntRaw_consumes header input r2 v2 hraw
        exact ⟨bs, h1, by rw [← h.1, ← hint.1]; exact h2⟩
  | Float =>
    simp only [hty] at h
    cases hf : parseFloat header input with
    | error e => simp only [hf] at h; exact absurd h (by simp)
    | ok p =>
      obtain ⟨r, v⟩ := p
      simp only [hf, Except.ok.injEq, Prod.mk.injEq] at h
      refine Or.inr ⟨by rw [← h.2]; simp, ?_⟩
      obtain ⟨bs, h1, h2⟩ := parseFloat_consumes header input r v hf
      exact ⟨bs, h1, by rw [← h.1]; exact h2⟩
  | String =>
    simp only [hty] at h
    cases hs : parseString header input with
    | error e => simp only [hs] at h; exact absurd h (by simp)
    | ok p =>
      obtain ⟨r, v⟩ := p
      simp only [hs, Except.ok.injEq, Prod.mk.injEq] at h
      refine Or.inr ⟨by rw [← h.2]; simp, ?_⟩
      obtain ⟨bs, h1, h2⟩ := parseString_consumes header input r v hs
      exact ⟨bs, h1, by rw [← h.1]; exact h2⟩
  | Utf8 =>
    simp only [hty] at h
    cases hs : parseString header input with
    | error e => simp only [hs] at h; exact absurd h (by simp)
    | ok p =>
      obtain ⟨r, v⟩ := p
      simp only [hs, Except.ok.injEq, Prod.mk.injEq] at h
      refine Or.inr ⟨by rw [← h.2]; simp, ?_⟩
      obtain ⟨bs, h1, h2⟩ := parseString_consumes header input r v hs
      exact ⟨bs, h1, by rw [← h.1]; exact h2⟩
  | Date =>
    simp only [hty] at h
    cases hd : parseDate header input with
    | error e => simp only [hd] at h; exact absurd h (by simp)
    | ok p =>
      obtain ⟨r, v⟩ := p
      simp only [hd, Except.ok.injEq, Prod.mk.injEq] at h
      refine Or.inr ⟨by rw [← h.2]; simp, ?_⟩
      unfold parseDate at hd
      cases hsint : parseSignedInt header input with
      | error e => rw [hsint] at hd; exact absurd hd (by simp)
      | ok q =>
        obtain ⟨r2, v2⟩ := q
        rw [hsint] at hd
        simp only [Except.ok.injEq, Prod.mk.injEq] at hd
        unfold parseSignedInt at hsint
        cases hraw : parseIntRaw header input with
        | error e => rw [hraw] at hsint; exact absurd hsint (by simp)
        | ok q2 =>
          obtain ⟨r3, v3⟩ := q2
          rw [hraw] at hsint
          simp only [Except.ok.injEq, Prod.mk.injEq] at hsint
          obtain ⟨bs, h1, h2⟩ := parseIntRaw_consumes header input r3 v3 hraw
          exact ⟨bs, h1, by rw [← h.1, ← hd.1, ← hsint.1]; exact h2⟩
  | Binary =>
    simp only [hty] at h
    cases hbin : parseBinary header input with
    | error e => simp only [hbin] at h; exact absurd h (by simp)
    | ok p =>
      obtain ⟨r, v⟩ := p
      simp only [hbin] at h
      cases hbv : BinaryValue.new header.id v with
      | error e => simp only [hbv] at h; exact absurd h (by simp)
      | ok bv =>
        simp only [hbv, Except.ok.injEq, Prod.mk.injEq] at h
        refine Or.inr ⟨by rw [← h.2]; simp, ?_⟩
        obtain ⟨bs, h1, h2⟩ := parseBinary_consumes header input r v hbin
        exact ⟨bs, h1, by rw [← h.1]; exact h2⟩

/-- Stamping the position does not change the position advance. -/
theorem positionAdvance_stamp (e : Element) (pos : Option Nat) :
    positionAdvance
      { e with header := { e.header with position := pos } } =
    positionAdvance e := by
  unfold positionAdvance
  cases e.body <;> rfl

/-- One driver step consumes exactly the position advance of the element
it emits, and a non-Master emission always carries a known total size
(equal to its advance). -/
theorem parseElementOrSkipCorrupted_step (buf rest : List Nat) (e : Element)
    (h : parseElementOrSkipCorrupted buf = .ok (rest, e)) :
    buf.length = positionAdvance e + rest.length ∧
    (e.body ≠ .Master → e.header.size = some (positionAdvance e)) := by
  unfold parseElementOrSkipCorrupted at h
  cases hpe : parseElement buf with
  | ok p =>
    rw [hpe] at h
    injection h with h2
    subst h2
    unfold parseElement at hpe
    cases hph : parseHeader buf with
    | error err => rw [hph] at hpe; exact absurd hpe (by simp)
    | ok q =>
      obtain ⟨input1, header⟩ := q
      simp only [hph] at hpe
      cases hpb : parseBody header input1 with
      | error err => simp only [hpb] at hpe; exact absurd hpe (by simp)
      | ok q2 =>
        obtain ⟨rest2, body⟩ := q2
        simp only [hpb, Except.ok.injEq, Prod.mk.injEq] at hpe
        obtain ⟨hr, he⟩ := hpe
        subst hr
        obtain ⟨hhc, hsome, hnone⟩ := parseHeader_consumes buf input1 header hph
        rcases parseBody_consumes header input1 _ body hpb with
          ⟨hbm, hri⟩ | ⟨hbnm, bs, hbs, hbc⟩
        · subst hri
          rw [← he]
          constructor
          · simp only [positionAdvance, hbm]
            omega
          · intro hne
            exact absurd hbm (by simpa using hne)
        · rw [← he]
          have hsz := hsome bs hbs
          constructor
          · simp only [positionAdvance]
            cases hbody : body with
            | Master => exact absurd hbody hbnm
            | _ =>
              simp only [hsz, Option.getD_some]
              omega
          · intro hne
            simp only [positionAdvance]
            cases hbody : body with
            | Master => exact absurd hbody hbnm
            | _ => simp only [hsz, Option.getD_some]
  | error err =>
    rw [hpe] at h
    unfold findValidElement at h
    cases hfs : findSync buf with
    | none => rw [hfs] at h; exact absurd h (by simp)
    | some o =>
      rw [hfs] at h
      simp only [Except.ok.injEq, Prod.mk.injEq] at h
      obtain ⟨hr, he⟩ := h
      obtain ⟨⟨hocc, -⟩, -⟩ := findSync_some buf o hfs
      subst hr
      rw [← he]
      constructor
      · simp only [positionAdvance, Header.new, Option.getD_some,
          List.length_drop]
        omega
      · intro hne
        simp [positionAdvance, Header.new]

/-- Invariant of the driver loop started at position `p0`: every emitted
element is stamped with `p0` plus the advances of the elements before
it, the consumed bytes equal the summed advances, and every non-Master
emission carries a known total size equal to its advance. -/
theorem parseElementsGo_invariant (fuel : Nat) :
    ∀ (buf : List Nat) (p0 : Nat) (elems : List Element)
      (leftover : List Nat),
      parseElementsGo fuel buf (some p0) = (elems, leftover) →
      (∀ i (hi : i < elems.length),
        (elems.get ⟨i, hi⟩).header.position =
          some (p0 + (((elems.map positionAdvance).take i).sum))) ∧
      ((elems.map positionAdvance).sum + leftover.length = buf.length) ∧
      (∀ e ∈ elems, e.body ≠ .Master →
        e.header.size = some (positionAdvance e)) := by
  induction fuel with
  | zero =>
    intro buf p0 elems leftover hrun
    simp only [parseElementsGo, Prod.mk.injEq] at hrun
    obtain ⟨h1, h2⟩ := hrun
    subst h1
    subst h2
    refine ⟨?_, by simp, by simp⟩
    intro i hi
    simp at hi
  | succ fuel ih =>
    intro buf p0 elems leftover hrun
    simp only [parseElementsGo] at hrun
    cases hpe : parseElementOrSkipCorrupted buf with
    | error err =>
      simp only [hpe, Prod.mk.injEq] at hrun
      obtain ⟨h1, h2⟩ := hrun
      subst h1
      subst h2
      refine ⟨?_, by simp, by simp⟩
      intro i hi
      simp at hi
    | ok p =>
      obtain ⟨newBuf, element⟩ := p
      simp only [hpe] at hrun
      obtain ⟨hstep, hsize⟩ :=
        parseElementOrSkipCorrupted_step buf newBuf element hpe
      by_cases hnb : newBuf = []
      · rw [if_pos hnb] at hrun
        simp only [Prod.mk.injEq] at hrun
        obtain ⟨h1, h2⟩ := hrun
        subst h1
        refine ⟨?_, ?_, ?_⟩
        · intro i hi
          simp only [List.length_cons, List.length_nil] at hi
          have : i = 0 := by omega
          subst this
          simp
        · subst h2
          simp only [List.map_cons, List.map_nil, List.sum_cons,
            List.sum_nil, List.length_nil, positionAdvance_stamp]
          rw [hstep, hnb]
          simp
        · intro e he hm
          simp only [List.mem_singleton] at he
          subst he
          have := hsize (by simpa using hm)
          simpa [positionAdvance_stamp] using this
      · rw [if_neg hnb] at hrun
        cases hgo : parseElementsGo fuel newBuf
            (some (p0 + positionAdvance element)) with
        | mk elems2 leftover2 =>
          simp only [Option.map_some'] at hrun
          rw [hgo] at hrun
          simp only [Prod.mk.injEq] at hrun
          obtain ⟨h1, h2⟩ := hrun
          subst h2
          obtain ⟨ih1, ih2, ih3⟩ := ih _ _ _ _ hgo
          subst h1
          refine ⟨?_, ?_, ?_⟩
          · intro i hi
            match i with
            | 0 => simp
            | i + 1 =>
              simp only [List.length_cons] at hi
              have hi2 : i < elems2.length := by omega
              have := ih1 i hi2
              simp only [List.get_cons_succ]
              rw [this]
              simp only [List.map_cons, List.take_succ_cons, List.sum_cons,
                positionAdvance_stamp]
              congr 1
              omega
          · simp only [List.map_cons, List.sum_cons, positionAdvance_stamp]
            omega
          · intro e he hm
            rcases List.mem_cons.mp he with rfl | hin
            · have := hsize (by simpa using hm)
              simpa [positionAdvance_stamp] using this
            · exact ih3 e hin hm

/-- C9: with position reporting enabled, the first emitted element has
position 0; each subsequent element's position is the previous position
plus the previous element's `header_size` (Master body) or `total_size`
(otherwise); positions are monotonically non-decreasing; and when the run
consumes the input to completion the emitted byte extents tile the input:
the summed advances equal the input length. -/
theorem parse_elements_positions_spec (fuel : Nat) (input : List Nat)
    (elems : List Element) (leftover : List Nat)
    (hrun : parseElements fuel input true = (elems, leftover)) :
    (∀ (h0 : 0 < elems.length),
      (elems.get ⟨0, h0⟩).header.position = some 0) ∧
    (∀ i (hi1 : i < elems.length) (hi2 : i + 1 < elems.length),
      ∃ p adv, (elems.get ⟨i, hi1⟩).header.position = some p ∧
        (elems.get ⟨i + 1, hi2⟩).header.position = some (p + adv) ∧
        (((elems.get ⟨i, hi1⟩).body = .Master ∧
            adv = (elems.get ⟨i, hi1⟩).header.headerSize) ∨
         ((elems.get ⟨i, hi1⟩).body ≠ .Master ∧
            (elems.get ⟨i, hi1⟩).header.size = some adv))) ∧
    (∀ i j (hi : i < elems.length) (hj : j < elems.length), i ≤ j →
      ∃ p q, (elems.get ⟨i, hi⟩).header.position = some p ∧
        (elems.get ⟨j, hj⟩).header.position = some q ∧ p ≤ q) ∧
    (leftover = [] → (elems.map positionAdvance).sum = input.length) ∧
    (∀ e ∈ elems, e.body ≠ .Master →
      e.header.size = some (positionAdvance e)) := by
  have hrun2 : parseElementsGo fuel input (some 0) = (elems, leftover) := by
    rw [← hrun]
    rfl
  obtain ⟨inv1, inv2, inv3⟩ :=
    parseElementsGo_invariant fuel input 0 elems leftover hrun2
  refine ⟨?_, ?_, ?_, ?_, inv3⟩
  · intro h0
    have := inv1 0 h0
    simpa using this
  · intro i hi1 hi2
    have h1 := inv1 i hi1
    have h2 := inv1 (i + 1) hi2
    refine ⟨0 + ((elems.map positionAdvance).take i).sum,
      positionAdvance (elems.get ⟨i, hi1⟩), h1, ?_, ?_⟩
    · rw [h2]
      congr 1
      have hlen : i < (elems.map positionAdvance).length := by
        simpa using hi1
      rw [List.sum_take_succ _ i hlen]
      have : (elems.map positionAdvance)[i] =
          positionAdvance (elems.get ⟨i, hi1⟩) := by
        simp
      rw [this]
      omega
    · by_cases hbm : (elems.get ⟨i, hi1⟩).body = .Master
      · refine Or.inl ⟨hbm, ?_⟩
        simp only [List.get_eq_getElem] at hbm
        simp [positionAdvance, hbm]
      · exact Or.inr ⟨hbm, inv3 (elems.get ⟨i, hi1⟩)
          (elems.get_mem i hi1) hbm⟩
  · intro i j hi hj hij
    refine ⟨0 + ((elems.map positionAdvance).take i).sum,
      0 + ((elems.map positionAdvance).take j).sum, inv1 i hi, inv1 j hj, ?_⟩
    have hsplit := (List.take_append_drop i
      ((elems.map positionAdvance).take j)).symm
    have htt : ((elems.map positionAdvance).take j).take i =
        (elems.map positionAdvance).take i := by
      rw [List.take_take, min_eq_left hij]
    rw [htt] at hsplit
    have : (((elems.map positionAdvance).take j)).sum =
        ((elems.map positionAdvance).take i).sum +
          (((elems.map positionAdvance).take j).drop i).sum := by
      conv_lhs => rw [hsplit]
      rw [List.sum_append]
    omega
  · intro hleft
    rw [hleft] at inv2
    simpa using inv2

/-- Witness for C9: a run over two integer elements consumes all 8 input
bytes and the summed advances equal the input length. -/
theorem parse_elements_positions_spec_witness :
    (parseElements 4 [0x42, 0x86, 0x81, 0x01, 0x42, 0xF7, 0x81, 0x01]
      true).2 = [] ∧
    (((parseElements 4 [0x42, 0x86, 0x81, 0x01, 0x42, 0xF7, 0x81, 0x01]
      true).1.map positionAdvance).sum) = 8 := by
  have hspec := parse_elements_positions_spec 4
    [0x42, 0x86, 0x81, 0x01, 0x42, 0xF7, 0x81, 0x01]
    (parseElements 4 [0x42, 0x86, 0x81, 0x01, 0x42, 0xF7, 0x81, 0x01] true).1
    (parseElements 4 [0x42, 0x86, 0x81, 0x01, 0x42, 0xF7, 0x81, 0x01] true).2
    rfl
  exact ⟨rfl, hspec.2.2.2.1 rfl⟩

/-! ## Hex summary (C10) -/

/-- The spec's space-separated lowercase-hex listing of bytes. -/
def hexListing : List Nat → List Char
  | [] => []
  | [b] => byteHexChars b
  | b :: rest => byteHexChars b ++ ' ' :: hexListing rest

theorem hexDigit_not_ws : ∀ n, n < 16 → (hexDigit n).isWhitespace = false := by
  decide

theorem byteHexChars_last_not_ws (b : Nat) :
    (hexDigit (b % 16)).isWhitespace = false :=
  hexDigit_not_ws (b % 16) (Nat.mod_lt b (by omega))

theorem foldl_hex_acc (l : List Nat) :
    ∀ a : List Char,
      l.foldl (fun acc b => acc ++ byteHexChars b ++ [' ']) a =
      a ++ l.foldl (fun acc b => acc ++ byteHexChars b ++ [' ']) [] := by
  induction l with
  | nil => intro a; simp
  | cons b rest ih =>
    intro a
    simp only [List.foldl_cons]
    rw [ih (a ++ byteHexChars b ++ [' ']), ih ([] ++ byteHexChars b ++ [' '])]
    simp

theorem fold_hex_closed (bytes : List Nat) :
    bytes.foldl (fun acc b => acc ++ byteHexChars b ++ [' ']) [] =
    hexListing bytes ++ (if bytes = [] then [] else [' ']) := by
  induction bytes with
  | nil => simp [hexListing]
  | cons b rest ih =>
    simp only [List.foldl_cons, List.nil_append]
    rw [foldl_hex_acc rest (byteHexChars b ++ [' '])]
    rw [ih]
    cases rest with
    | nil => simp [hexListing]
    | cons c rest2 =>
      rw [if_neg (by simp), if_neg (by simp)]
      show byteHexChars b ++ [' '] ++ (hexListing (c :: rest2) ++ [' ']) =
        (byteHexChars b ++ ' ' :: hexListing (c :: rest2)) ++ [' ']
      simp

theorem trimEndChars_append_space (u : List Char) :
    trimEndChars (u ++ [' ']) = trimEndChars u := by
  unfold trimEndChars
  simp [List.dropWhile]

theorem trimEndChars_append_of_ne (u v : List Char)
    (hv : trimEndChars v ≠ []) :
    trimEndChars (u ++ v) = u ++ trimEndChars v := by
  unfold trimEndChars at hv ⊢
  rw [List.reverse_append, List.dropWhile_append]
  have hne : (v.reverse.dropWhile Char.isWhitespace).isEmpty = false := by
    cases hd : v.reverse.dropWhile Char.isWhitespace with
    | nil => exact absurd (by rw [hd]; rfl) hv
    | cons x xs => rfl
  rw [hne]
  simp

theorem trimEndChars_hexListing (bytes : List Nat) :
    trimEndChars (hexListing bytes) = hexListing bytes := by
  induction bytes with
  | nil => rfl
  | cons b rest ih =>
    cases rest with
    | nil =>
      show trimEndChars (byteHexChars b) = byteHexChars b
      unfold trimEndChars byteHexChars
      simp [List.dropWhile, byteHexChars_last_not_ws b]
    | cons c rest2 =>
      show trimEndChars (byteHexChars b ++ ' ' :: hexListing (c :: rest2)) =
        byteHexChars b ++ ' ' :: hexListing (c :: rest2)
      have hne : trimEndChars (hexListing (c :: rest2)) ≠ [] := by
        rw [ih]
        cases rest2 <;> simp [hexListing, byteHexChars]
      have h1 : trimEndChars (' ' :: hexListing (c :: rest2)) =
          ' ' :: hexListing (c :: rest2) := by
        have := trimEndChars_append_of_ne [' '] (hexListing (c :: rest2)) hne
        simpa [ih] using this
      have h2 := trimEndChars_append_of_ne (byteHexChars b)
        (' ' :: hexListing (c :: rest2)) (by rw [h1]; simp)
      rw [h2, h1]

/-- `as_hex` in closed form: the bracketed space-separated listing for
at most 64 bytes. -/
theorem asHex_short (bytes : List Nat) (hlen : bytes.length ≤ 64) :
    asHex bytes = String.mk ('[' :: hexListing bytes ++ [']']) := by
  unfold asHex
  rw [if_pos hlen]
  rw [fold_hex_closed]
  cases hb : bytes with
  | nil => rfl
  | cons c rest =>
    rw [if_neg (by simp)]
    rw [trimEndChars_append_space, ← hb, trimEndChars_hexListing]

/-- C10: ids outside the catalog (`Unknown`) and the `Corrupted`
sentinel both resolve to the `Binary` type, so `parse_element` renders
such bodies as `Binary(Standard(summary))`; the summary is the
space-separated lowercase-hex listing in square brackets for bodies of
at most 64 bytes and the string `"N bytes"` for longer bodies. -/
theorem unknown_id_binary_spec :
    (∀ v, (Id.Unknown v).getType = .Binary) ∧
    (Id.Corrupted.getType = .Binary) ∧
    (∀ input rest e v, parseElement input = .ok (rest, e) →
      e.header.id = .Unknown v →
      ∃ bs, e.header.bodySize = some bs ∧
        e.body = .Binary (.Standard
          (asHex ((input.drop e.header.headerSize).take bs)))) ∧
    (∀ bytes : List Nat,
      (bytes.length ≤ 64 →
        asHex bytes = String.mk ('[' :: hexListing bytes ++ [']'])) ∧
      (64 < bytes.length →
        asHex bytes = toString bytes.length ++ " bytes")) := by
  refine ⟨fun v => rfl, rfl, ?_, ?_⟩
  · intro input rest e v hpe hid
    unfold parseElement at hpe
    cases hph : parseHeader input with
    | error err => rw [hph] at hpe; exact absurd hpe (by simp)
    | ok q =>
      obtain ⟨input1, header⟩ := q
      simp only [hph] at hpe
      cases hpb : parseBody header input1 with
      | error err => simp only [hpb] at hpe; exact absurd hpe (by simp)
      | ok q2 =>
        obtain ⟨rest2, body⟩ := q2
        simp only [hpb, Except.ok.injEq, Prod.mk.injEq] at hpe
        obtain ⟨-, he⟩ := hpe
        have hhid : header.id = .Unknown v := by rw [← he] at hid; exact hid
        have hrest1 : input1 = input.drop header.headerSize := by
          cases hpid : parseId input with
          | error err =>
            rw [parseHeader, hpid] at hph
            exact absurd hph (by simp)
          | ok qid =>
            obtain ⟨r1, idv⟩ := qid
            cases hpv : parseVarint r1 with
            | error err =>
              rw [parseHeader] at hph
              simp only [hpid, hpv] at hph
              exact absurd hph (by simp)
            | ok qv =>
              obtain ⟨r2, bsv⟩ := qv
              rw [parseHeader] at hph
              simp only [hpid, hpv] at hph
              obtain ⟨w1, hw1⟩ := parseId_ok_drop input r1 idv hpid
              obtain ⟨w2, hw2⟩ := parseVarint_ok_drop r1 r2 bsv hpv
              have hr2 : r2 = input.drop (w1 + w2) := by
                rw [hw2, hw1, List.drop_drop, Nat.add_comm]
              by_cases hcond : bsv = none ∧ idv ≠ .Segment ∧ idv ≠ .Cluster
              · rw [if_pos (by simpa using hcond)] at hph
                exact absurd hph (by simp)
              · rw [if_neg (by simpa using hcond)] at hph
                have hdrop : input.drop (input.length - r2.length) =
                    input.drop (w1 + w2) := by
                  rw [hr2]
                  simp only [List.length_drop]
                  by_cases hw : w1 + w2 ≤ input.length
                  · congr 1
                    omega
                  · rw [List.drop_eq_nil_of_le (by omega),
                      List.drop_eq_nil_of_le (by omega)]
                cases bsv with
                | some bsize =>
                  simp only [Except.ok.injEq, Prod.mk.injEq] at hph
                  obtain ⟨h1, h2⟩ := hph
                  rw [← h1, ← h2]
                  simp only [Header.new]
                  rw [hdrop, hr2]
                | none =>
                  simp only [Except.ok.injEq, Prod.mk.injEq] at hph
                  obtain ⟨h1, h2⟩ := hph
                  rw [← h1, ← h2]
                  simp only [Header.withUnknownSize]
                  rw [hdrop, hr2]
        unfold parseBody at hpb
        rw [show header.id.getType = .Binary from by rw [hhid]; rfl] at hpb
        simp only at hpb
        cases hbin : parseBinary header input1 with
        | error err => simp only [hbin] at hpb; exact absurd hpb (by simp)
        | ok q3 =>
          obtain ⟨r3, value⟩ := q3
          simp only [hbin] at hpb
          rw [show BinaryValue.new header.id value =
              .ok (.Standard (asHex value)) from by rw [hhid]; rfl] at hpb
          simp only [Except.ok.injEq, Prod.mk.injEq] at hpb
          unfold parseBinary at hbin
          cases hbs : header.bodySize with
          | none => rw [hbs] at hbin; exact absurd hbin (by simp)
          | some bs =>
            simp only [hbs] at hbin
            obtain ⟨hp, -⟩ := readBytes_ok _ _ _ hbin
            simp only [Prod.mk.injEq] at hp
            refine ⟨bs, by rw [← he]; exact hbs, ?_⟩
            rw [← he, ← hpb.2, hp.2, hrest1]
  · intro bytes
    refine ⟨asHex_short bytes, ?_⟩
    intro hlen
    unfold asHex
    rw [if_neg (by omega)]

/-- Witness for C10 on concrete inputs: the 2-byte and 65-byte summary
shapes. -/
theorem unknown_id_binary_spec_witness :
    asHex [0x01, 0x02] = "[01 02]" ∧
    asHex (List.replicate 65 0) = "65 bytes" := by
  have h1 := (unknown_id_binary_spec.2.2.2 [0x01, 0x02]).1 (by decide)
  have h2 := (unknown_id_binary_spec.2.2.2 (List.replicate 65 0)).2 (by simp)
  constructor
  · rw [h1]; rfl
  · rw [h2]; rfl

end Mkv
